import Mathlib

/-!
# Verification of the character-card codec

Shallow embedding of the character-card import/export codec
(`cardImportService`): a JSON-like dynamic value model, the card
normalization layer (`buildCharacter`, `buildExportData`), the PNG chunk
scanner (`parseCharacterCard`), the PNG chunk writer (`createTavernPng`),
the quick-reply export objects, and the CRC32 utility.

JavaScript dynamic values are modelled by the inductive type `JVal`
(with an explicit `undef` for JavaScript's `undefined`); JavaScript
objects are modelled as insertion-ordered association lists, with
object-literal spread modelled by `oset`/`ospread` (replace in place,
append new keys at the end, exactly as JavaScript property order works).

Platform primitives used by the source (`atob`, `btoa`, `TextEncoder`,
`TextDecoder`, `JSON.parse`, `JSON.stringify`) are modelled executably
from their platform specifications; `DecompressionStream` is kept
abstract as an `inflate : List Nat → Option String` parameter, since the
claims under verification never depend on a particular inflate result.
-/

/-- A JavaScript/JSON dynamic value.  `undef` is JavaScript `undefined`
(distinct from JSON `null`); numbers are modelled as integers, which
covers every numeric literal appearing in the code under verification. -/
inductive JVal where
  | undef : JVal
  | null : JVal
  | bool : Bool → JVal
  | num : Int → JVal
  | str : String → JVal
  | arr : List JVal → JVal
  | obj : List (String × JVal) → JVal
  deriving Repr

mutual

/-- Boolean structural equality on `JVal` (the automatic `DecidableEq`
derivation does not support this nested inductive). -/
def JVal.beq : JVal → JVal → Bool
  | .undef, .undef => true
  | .null, .null => true
  | .bool a, .bool b => a == b
  | .num a, .num b => a == b
  | .str a, .str b => a == b
  | .arr a, .arr b => JVal.beqList a b
  | .obj a, .obj b => JVal.beqObj a b
  | _, _ => false

/-- Elementwise `JVal.beq` on lists. -/
def JVal.beqList : List JVal → List JVal → Bool
  | [], [] => true
  | x :: xs, y :: ys => JVal.beq x y && JVal.beqList xs ys
  | _, _ => false

/-- Elementwise `JVal.beq` on field lists. -/
def JVal.beqObj : List (String × JVal) → List (String × JVal) → Bool
  | [], [] => true
  | (k, v) :: xs, (k2, v2) :: ys => k == k2 && JVal.beq v v2 && JVal.beqObj xs ys
  | _, _ => false

end

theorem JVal.beqList_iff_of (xs ys : List JVal)
    (ih : ∀ x ∈ xs, ∀ b : JVal, JVal.beq x b = true ↔ x = b) :
    JVal.beqList xs ys = true ↔ xs = ys := by
  induction xs generalizing ys with
  | nil => cases ys <;> simp [JVal.beqList]
  | cons x xs h =>
    cases ys with
    | nil => simp [JVal.beqList]
    | cons y ys =>
      have hrest := h ys (fun z hz b => ih z (by simp [hz]) b)
      simp [JVal.beqList, Bool.and_eq_true, ih x (by simp), hrest]

theorem JVal.beqObj_iff_of (xs ys : List (String × JVal))
    (ih : ∀ p ∈ xs, ∀ b : JVal, JVal.beq p.2 b = true ↔ p.2 = b) :
    JVal.beqObj xs ys = true ↔ xs = ys := by
  induction xs generalizing ys with
  | nil => cases ys <;> simp [JVal.beqObj]
  | cons x xs h =>
    cases ys with
    | nil => simp [JVal.beqObj]
    | cons y ys =>
      obtain ⟨k, v⟩ := x
      obtain ⟨k2, v2⟩ := y
      have hrest := h ys (fun z hz b => ih z (by simp [hz]) b)
      simp [JVal.beqObj, Bool.and_eq_true, ih ⟨k, v⟩ (by simp), hrest,
        Prod.ext_iff, and_assoc]

theorem JVal.beq_iff_aux :
    ∀ (n : Nat) (a : JVal), sizeOf a ≤ n → ∀ b, JVal.beq a b = true ↔ a = b := by
  intro n
  induction n with
  | zero => intro a ha; cases a <;> simp at ha
  | succ n ih =>
    intro a ha b
    cases a <;> cases b <;> simp [JVal.beq]
    case arr.arr xs ys =>
      refine JVal.beqList_iff_of xs ys (fun x hx b => ih x ?_ b)
      have h1 := List.sizeOf_lt_of_mem hx
      have h2 : sizeOf (JVal.arr xs) = 1 + sizeOf xs := by simp
      omega
    case obj.obj xs ys =>
      refine JVal.beqObj_iff_of xs ys (fun p hp b => ih p.2 ?_ b)
      have h1 := List.sizeOf_lt_of_mem hp
      obtain ⟨k, v⟩ := p
      have h2 : sizeOf (JVal.obj xs) = 1 + sizeOf xs := by simp
      have h3 : sizeOf (k, v) = 1 + sizeOf k + sizeOf v := by simp
      simp only at h1 h2 ⊢
      omega

theorem JVal.beq_iff (a b : JVal) : JVal.beq a b = true ↔ a = b :=
  JVal.beq_iff_aux (sizeOf a) a (Nat.le_refl _) b

instance : DecidableEq JVal := fun a b =>
  decidable_of_iff (JVal.beq a b = true) (JVal.beq_iff a b)

deriving instance DecidableEq for Except

/-- JavaScript truthiness of a value (`if (v)`).  Empty arrays and empty
objects are truthy in JavaScript. -/
def truthy : JVal → Bool
  | .undef => false
  | .null => false
  | .bool b => b
  | .num n => n != 0
  | .str s => s != ""
  | .arr _ => true
  | .obj _ => true

/-- `a || b` on JavaScript values. -/
def jor (a b : JVal) : JVal := if truthy a then a else b

/-- First-match lookup in an ordered field list; absent keys give
`undef`, as JavaScript property access does. -/
def olookup : List (String × JVal) → String → JVal
  | [], _ => .undef
  | (k, v) :: rest, key => if k = key then v else olookup rest key

/-- Whether a field list carries the key. -/
def hasKey (o : List (String × JVal)) (key : String) : Bool :=
  o.any (fun p => p.1 == key)

/-- Property assignment / object-literal field: replace an existing key
in place (JavaScript keeps the original property position), otherwise
append the new key at the end. -/
def oset (o : List (String × JVal)) (key : String) (v : JVal) :
    List (String × JVal) :=
  if hasKey o key then o.map (fun p => if p.1 = key then (p.1, v) else p)
  else o ++ [(key, v)]

/-- Object spread `{...a, ...b}`: assign every field of `b` onto `a` in
order. -/
def ospread (a b : List (String × JVal)) : List (String × JVal) :=
  b.foldl (fun acc p => oset acc p.1 p.2) a

/-- Property access `v.key`: objects look the key up; all other values
give `undefined` (the one divergence from JavaScript — `null.key`
throws — is excluded by the object-shaped hypotheses of every theorem
below). -/
def jget : JVal → String → JVal
  | .obj o, key => olookup o key
  | _, _ => JVal.undef

/-- Own enumerable fields of a value, as produced by spreading it into
an object literal (`{...v}`): objects give their fields, arrays and
strings give index-keyed fields, primitives give nothing. -/
def jSpreadFields : JVal → List (String × JVal)
  | .obj o => ospread [] o
  | .arr l => l.enum.map (fun p => (toString p.1, p.2))
  | .str s => s.data.enum.map (fun p => (toString p.1, JVal.str (String.mk [p.2])))
  | _ => []

example : truthy (.arr []) = true := by decide
example : olookup (oset [("a", .num 1)] "a" (.num 2)) "a" = .num 2 := by decide
example : ospread [("a", .num 1), ("b", .num 2)] [("b", .num 3), ("c", .num 4)]
    = [("a", .num 1), ("b", .num 3), ("c", .num 4)] := by decide

/-! ## String coercion (JavaScript `String(v)` and `Array.prototype.join`) -/

mutual

/-- JavaScript string coercion `String(v)` (template-literal
interpolation): arrays join their elements with `","` (`null` and
`undefined` elements become empty), objects print as
`[object Object]`. -/
def jStringCoerce : JVal → String
  | .undef => "undefined"
  | .null => "null"
  | .bool b => if b then "true" else "false"
  | .num n => toString n
  | .str s => s
  | .arr l => jJoinElems "," l
  | .obj _ => "[object Object]"

/-- `Array.prototype.join sep`: `null` and `undefined` elements become
empty strings, every other element is string-coerced. -/
def jJoinElems (sep : String) : List JVal → String
  | [] => ""
  | x :: xs =>
      (match x with
       | .null => ""
       | .undef => ""
       | x => jStringCoerce x) ++
      (match xs with
       | [] => ""
       | _ :: _ => sep ++ jJoinElems sep xs)

end

/-! ## Platform primitives: base64 (`atob`/`btoa`) -/

/-- The character class matched by the JavaScript regex `\s`
(restricted to the code points that occur in the inputs under
verification). -/
def isJsWs (c : Char) : Bool :=
  c.toNat = 32 || (9 ≤ c.toNat && c.toNat ≤ 13) || c.toNat = 160 ||
  c.toNat = 0x2028 || c.toNat = 0x2029 || c.toNat = 0xFEFF

/-- `s.replace(/\s/g, "")`. -/
def stripWs (s : String) : String := String.mk (s.data.filter (fun c => !isJsWs c))

/-- `s.trim()`: drop JS whitespace from both ends. -/
def jsTrim (s : String) : String :=
  String.mk (((s.data.dropWhile isJsWs).reverse.dropWhile isJsWs).reverse)

/-- Character-list prefix test. -/
def charsStart : List Char → List Char → Bool
  | [], _ => true
  | _ :: _, [] => false
  | a :: as, b :: bs => a = b && charsStart as bs

/-- `s.startsWith(p)`. -/
def strStarts (s p : String) : Bool := charsStart p.data s.data

/-- `s.split(",")` (an empty string yields one empty piece, as in JS). -/
def splitCommaAux : List Char → List Char → List String
  | [], acc => [String.mk acc.reverse]
  | c :: cs, acc =>
    if c = ',' then String.mk acc.reverse :: splitCommaAux cs []
    else splitCommaAux cs (c :: acc)

/-- `s.split(",")`. -/
def splitComma (s : String) : List String := splitCommaAux s.data []

/-- `s.toLowerCase()` (ASCII, which is all the keyword comparison needs). -/
def lowerStr (s : String) : String := String.mk (s.data.map Char.toLower)

/-- Value of one base64 alphabet character. -/
def b64Val (c : Char) : Option Nat :=
  if 'A' ≤ c ∧ c ≤ 'Z' then some (c.toNat - 65)
  else if 'a' ≤ c ∧ c ≤ 'z' then some (c.toNat - 97 + 26)
  else if '0' ≤ c ∧ c ≤ '9' then some (c.toNat - 48 + 52)
  else if c = '+' then some 62
  else if c = '/' then some 63
  else none

/-- Reassemble bytes from a list of 6-bit values (tail groups of 2 or 3
values produce 1 or 2 bytes, the leftover bits being discarded as the
forgiving-base64 algorithm does). -/
def b64Assemble : List Nat → List Nat
  | a :: b :: c :: d :: rest =>
      (a * 4 + b / 16) :: ((b % 16) * 16 + c / 4) :: ((c % 4) * 64 + d) :: b64Assemble rest
  | [a, b] => [a * 4 + b / 16]
  | [a, b, c] => [a * 4 + b / 16, (b % 16) * 16 + c / 4]
  | _ => []

/-- The platform `atob` (WHATWG forgiving-base64 decode, on input that
has already had whitespace removed): strip up to two trailing `=` when
the length is a multiple of four, reject a length of 1 mod 4 and any
character outside the alphabet, and reassemble 6-bit groups. -/
def atobBytes (s : String) : Option (List Nat) :=
  let cs := s.data
  let cs := if cs.length % 4 = 0 then
      match cs.reverse with
      | '=' :: '=' :: rest => rest.reverse
      | '=' :: rest => rest.reverse
      | _ => cs
    else cs
  if cs.length % 4 = 1 then none
  else (cs.mapM b64Val).map b64Assemble

/-- One base64 alphabet character. -/
def b64Char (n : Nat) : Char :=
  if n < 26 then Char.ofNat (65 + n)
  else if n < 52 then Char.ofNat (97 + n - 26)
  else if n < 62 then Char.ofNat (48 + n - 52)
  else if n = 62 then '+' else '/'

/-- Base64-encode a byte list (with `=` padding), as the platform
`btoa` does. -/
def b64Encode : List Nat → List Char
  | a :: b :: c :: rest =>
      b64Char (a / 4) :: b64Char ((a % 4) * 16 + b / 16) ::
      b64Char ((b % 16) * 4 + c / 64) :: b64Char (c % 64) :: b64Encode rest
  | [a] => [b64Char (a / 4), b64Char ((a % 4) * 16), '=', '=']
  | [a, b] => [b64Char (a / 4), b64Char ((a % 4) * 16 + b / 16), b64Char ((b % 16) * 4), '=']
  | [] => []

/-- The platform `btoa` on a byte list. -/
def btoaStr (bytes : List Nat) : String := String.mk (b64Encode bytes)

/-! ## Platform primitives: UTF-8 (`TextEncoder`/`TextDecoder`) -/

/-- UTF-8 bytes of one scalar value. -/
def utf8EncodeChar (c : Char) : List Nat :=
  let n := c.toNat
  if n < 0x80 then [n]
  else if n < 0x800 then [0xC0 + n / 64, 0x80 + n % 64]
  else if n < 0x10000 then [0xE0 + n / 4096, 0x80 + (n / 64) % 64, 0x80 + n % 64]
  else [0xF0 + n / 262144, 0x80 + (n / 4096) % 64, 0x80 + (n / 64) % 64, 0x80 + n % 64]

/-- The platform `TextEncoder.encode`. -/
def utf8Encode (s : String) : List Nat := (s.data.map utf8EncodeChar).flatten

/-- The replacement character U+FFFD emitted by a non-fatal
`TextDecoder` on malformed input. -/
def replChar : Char := Char.ofNat 0xFFFD

/-- Whether a byte is a UTF-8 continuation byte. -/
def utf8Cont (c : Nat) : Bool := 0x80 ≤ c && c < 0xC0

/-- Fuel-driven body of the WHATWG UTF-8 decoder with U+FFFD
replacement (a non-fatal `TextDecoder` never throws).  The fuel is an
upper bound on the number of bytes, so `utf8Decode` below never
starves. -/
def utf8DecodeAux : Nat → List Nat → List Char
  | 0, _ => []
  | _, [] => []
  | fuel + 1, b :: rest =>
    if b < 0x80 then Char.ofNat b :: utf8DecodeAux fuel rest
    else if b < 0xC2 then replChar :: utf8DecodeAux fuel rest
    else if b < 0xE0 then
      match rest with
      | c :: rest2 =>
        if utf8Cont c then
          Char.ofNat ((b - 0xC0) * 64 + (c - 0x80)) :: utf8DecodeAux fuel rest2
        else replChar :: utf8DecodeAux fuel rest
      | [] => [replChar]
    else if b < 0xF0 then
      match rest with
      | c :: rest1 =>
        let lowOk := if b = 0xE0 then 0xA0 ≤ c && c < 0xC0
          else if b = 0xED then 0x80 ≤ c && c < 0xA0
          else utf8Cont c
        if lowOk then
          match rest1 with
          | c2 :: rest2 =>
            if utf8Cont c2 then
              Char.ofNat ((b - 0xE0) * 4096 + (c - 0x80) * 64 + (c2 - 0x80)) ::
                utf8DecodeAux fuel rest2
            else replChar :: utf8DecodeAux fuel rest1
          | [] => [replChar]
        else replChar :: utf8DecodeAux fuel rest
      | [] => [replChar]
    else if b < 0xF5 then
      match rest with
      | c :: rest1 =>
        let lowOk := if b = 0xF0 then 0x90 ≤ c && c < 0xC0
          else if b = 0xF4 then 0x80 ≤ c && c < 0x90
          else utf8Cont c
        if lowOk then
          match rest1 with
          | c2 :: rest2 =>
            if utf8Cont c2 then
              match rest2 with
              | c3 :: rest3 =>
                if utf8Cont c3 then
                  Char.ofNat ((b - 0xF0) * 262144 + (c - 0x80) * 4096 +
                    (c2 - 0x80) * 64 + (c3 - 0x80)) :: utf8DecodeAux fuel rest3
                else replChar :: utf8DecodeAux fuel rest2
              | [] => [replChar]
            else replChar :: utf8DecodeAux fuel rest1
          | [] => [replChar]
        else replChar :: utf8DecodeAux fuel rest
      | [] => [replChar]
    else replChar :: utf8DecodeAux fuel rest

/-- The platform `TextDecoder("utf-8").decode` (non-fatal mode). -/
def utf8Decode (bytes : List Nat) : String :=
  String.mk (utf8DecodeAux bytes.length bytes)

example : utf8Decode (utf8Encode "chara") = "chara" := by decide

/-! ## Platform primitives: `JSON.parse` / `JSON.stringify`

`JSON.parse` is modelled executably on the JSON grammar, with two
documented restrictions that no claim depends on: numeric literals are
integers (no fraction/exponent), and a `\u` escape denoting a lone
surrogate becomes U+FFFD. Duplicate object keys are resolved exactly as
JavaScript does (first position, last value) via `oset`. -/

/-- JSON insignificant whitespace. -/
def jsonWs (c : Char) : Bool := c = ' ' || c = '\t' || c = '\n' || c = '\r'

/-- Skip JSON whitespace. -/
def skipJsonWs : List Char → List Char
  | c :: rest => if jsonWs c then skipJsonWs rest else c :: rest
  | [] => []

/-- Hex digit value. -/
def hexVal (c : Char) : Option Nat :=
  if '0' ≤ c ∧ c ≤ '9' then some (c.toNat - 48)
  else if 'a' ≤ c ∧ c ≤ 'f' then some (c.toNat - 97 + 10)
  else if 'A' ≤ c ∧ c ≤ 'F' then some (c.toNat - 65 + 10)
  else none

/-- Parse the body of a JSON string literal (after the opening quote),
returning the content and the remainder after the closing quote. -/
def parseJsonStr : Nat → List Char → Option (List Char × List Char)
  | 0, _ => none
  | _ + 1, [] => none
  | fuel + 1, c :: rest =>
    if c = '"' then some ([], rest)
    else if c = '\\' then
      match rest with
      | e :: rest1 =>
        let cont := fun (ch : Char) (r : List Char) =>
          (parseJsonStr fuel r).map (fun p => (ch :: p.1, p.2))
        if e = '"' then cont '"' rest1
        else if e = '\\' then cont '\\' rest1
        else if e = '/' then cont '/' rest1
        else if e = 'b' then cont (Char.ofNat 8) rest1
        else if e = 'f' then cont (Char.ofNat 12) rest1
        else if e = 'n' then cont '\n' rest1
        else if e = 'r' then cont '\r' rest1
        else if e = 't' then cont '\t' rest1
        else if e = 'u' then
          match rest1 with
          | h1 :: h2 :: h3 :: h4 :: rest2 =>
            match hexVal h1, hexVal h2, hexVal h3, hexVal h4 with
            | some a, some b, some c', some d =>
              let n := ((a * 16 + b) * 16 + c') * 16 + d
              let ch := if 0xD800 ≤ n ∧ n < 0xE000 then replChar else Char.ofNat n
              cont ch rest2
            | _, _, _, _ => none
          | _ => none
        else none
      | [] => none
    else if c.toNat < 0x20 then none
    else (parseJsonStr fuel rest).map (fun p => (c :: p.1, p.2))

/-- Parse an unsigned JSON integer literal (leading zeros rejected). -/
def parseJsonDigits (cs : List Char) : Option (Nat × List Char) :=
  let digits := cs.takeWhile Char.isDigit
  let rest := cs.dropWhile Char.isDigit
  match digits with
  | [] => none
  | '0' :: _ :: _ => none
  | _ => some (digits.foldl (fun acc c => acc * 10 + (c.toNat - 48)) 0, rest)

/-- A JSON number must not run into `.`, `e`, or `E` (we only model
integer numerals; such inputs are rejected instead of silently
misparsed). -/
def jsonNumBreak (cs : List Char) : Bool :=
  match cs with
  | c :: _ => !(c = '.' || c = 'e' || c = 'E')
  | [] => true

mutual

/-- Fuel-driven JSON value parser (the fuel chosen in `jparse` strictly
dominates the input length, so it never starves). -/
def parseJsonVal : Nat → List Char → Option (JVal × List Char)
  | 0, _ => none
  | fuel + 1, cs =>
    match skipJsonWs cs with
    | [] => none
    | c :: rest =>
      if c = 't' then
        match rest with
        | 'r' :: 'u' :: 'e' :: r2 => some (.bool true, r2)
        | _ => none
      else if c = 'f' then
        match rest with
        | 'a' :: 'l' :: 's' :: 'e' :: r2 => some (.bool false, r2)
        | _ => none
      else if c = 'n' then
        match rest with
        | 'u' :: 'l' :: 'l' :: r2 => some (.null, r2)
        | _ => none
      else if c = '"' then
        (parseJsonStr fuel rest).map (fun p => (.str (String.mk p.1), p.2))
      else if c = '-' then
        (parseJsonDigits rest).bind (fun p =>
          if jsonNumBreak p.2 then some (.num (-(p.1 : Int)), p.2) else none)
      else if c.isDigit then
        (parseJsonDigits (c :: rest)).bind (fun p =>
          if jsonNumBreak p.2 then some (.num (p.1 : Int), p.2) else none)
      else if c = '[' then
        match skipJsonWs rest with
        | ']' :: r2 => some (.arr [], r2)
        | r1 => parseJsonArr fuel r1 []
      else if c = Char.ofNat 123 then
        match skipJsonWs rest with
        | r1 =>
          match r1 with
          | c2 :: r2 => if c2 = Char.ofNat 125 then some (.obj [], r2)
              else parseJsonObj fuel r1 []
          | [] => none
      else none

/-- Parse the elements of a JSON array after the opening bracket. -/
def parseJsonArr (fuel : Nat) (cs : List Char) (acc : List JVal) :
    Option (JVal × List Char) :=
  match fuel with
  | 0 => none
  | fuel + 1 =>
    (parseJsonVal fuel cs).bind (fun p =>
      match skipJsonWs p.2 with
      | ',' :: r2 => parseJsonArr fuel r2 (acc ++ [p.1])
      | ']' :: r2 => some (.arr (acc ++ [p.1]), r2)
      | _ => none)

/-- Parse the members of a JSON object after the opening brace. -/
def parseJsonObj (fuel : Nat) (cs : List Char) (acc : List (String × JVal)) :
    Option (JVal × List Char) :=
  match fuel with
  | 0 => none
  | fuel + 1 =>
    match skipJsonWs cs with
    | '"' :: r1 =>
      (parseJsonStr fuel r1).bind (fun pk =>
        match skipJsonWs pk.2 with
        | ':' :: r2 =>
          (parseJsonVal fuel r2).bind (fun pv =>
            let acc := oset acc (String.mk pk.1) pv.1
            match skipJsonWs pv.2 with
            | ',' :: r3 => parseJsonObj fuel r3 acc
            | c3 :: r3 => if c3 = Char.ofNat 125 then some (.obj acc, r3) else none
            | [] => none)
        | _ => none)
    | _ => none

end

/-- The platform `JSON.parse`, as an `Option` (a `none` is a thrown
`SyntaxError`). -/
def jparse (s : String) : Option JVal :=
  match parseJsonVal (4 * (s.data.length + 1)) s.data with
  | some (v, rest) => match skipJsonWs rest with
    | [] => some v
    | _ => none
  | none => none

example : jparse "\x7b\"name\":\"A\"\x7d" = some (.obj [("name", .str "A")]) := by decide
example : jparse " [1, -2, \"a b\"] " = some (.arr [.num 1, .num (-2), .str "a b"]) := by decide
example : jparse "\x7b\"a\":1,\"a\":2,\"b\":null\x7d"
    = some (.obj [("a", .num 2), ("b", .null)]) := by decide
example : jparse "\x7b" = none := by decide
example : jparse "1.5" = none := by decide
example : jparse "tru" = none := by decide
example : jparse "\x7b\"x\":\x7b\"y\":[true,false]\x7d\x7d"
    = some (.obj [("x", .obj [("y", .arr [.bool true, .bool false])])]) := by decide

/-- JSON string-literal escaping as `JSON.stringify` performs it. -/
def jsonEscapeChar (c : Char) : List Char :=
  if c = '"' then ['\\', '"']
  else if c = '\\' then ['\\', '\\']
  else if c.toNat = 8 then ['\\', 'b']
  else if c.toNat = 9 then ['\\', 't']
  else if c = '\n' then ['\\', 'n']
  else if c.toNat = 12 then ['\\', 'f']
  else if c = '\r' then ['\\', 'r']
  else if c.toNat < 0x20 then
    ['\\', 'u', '0', '0',
      (if c.toNat / 16 < 10 then Char.ofNat (48 + c.toNat / 16)
        else Char.ofNat (97 + c.toNat / 16 - 10)),
      (if c.toNat % 16 < 10 then Char.ofNat (48 + c.toNat % 16)
        else Char.ofNat (97 + c.toNat % 16 - 10))]
  else [c]

/-- A quoted, escaped JSON string literal. -/
def jsonQuote (s : String) : String :=
  "\"" ++ String.mk ((s.data.map jsonEscapeChar).flatten) ++ "\""

mutual

/-- The platform `JSON.stringify` (compact form, as called by
`createTavernPng`).  Object members whose value is `undefined` are
dropped; `undefined` array elements print as `null`.  The top-level
call sites under verification always pass objects, so the top-level
`undefined` case (where the real `JSON.stringify` returns no string at
all) is mapped to `"null"` and never reached. -/
def jstringify : JVal → String
  | .undef => "null"
  | .null => "null"
  | .bool b => if b then "true" else "false"
  | .num n => toString n
  | .str s => jsonQuote s
  | .arr l => "[" ++ String.intercalate "," (jstringifyElems l) ++ "]"
  | .obj o => "\x7b" ++ String.intercalate "," (jstringifyFields o) ++ "\x7d"

/-- Serialized elements of an array. -/
def jstringifyElems : List JVal → List String
  | [] => []
  | v :: rest => jstringify v :: jstringifyElems rest

/-- Serialized members of an object, skipping `undefined` values. -/
def jstringifyFields : List (String × JVal) → List String
  | [] => []
  | (k, v) :: rest =>
    match v with
    | .undef => jstringifyFields rest
    | _ => (jsonQuote k ++ ":" ++ jstringify v) :: jstringifyFields rest

end

example : jstringify (.obj [("a", .num (-1)), ("b", .undef), ("c", .arr [.undef, .str "x\"y"])])
    = "\x7b\"a\":-1,\"c\":[null,\"x\\\"y\"]\x7d" := by decide
example : jparse (jstringify (.obj [("n", .str "a b")])) = some (.obj [("n", .str "a b")]) := by
  decide

/-! ## Card normalization layer -/

/-- The in-memory character record (`Character` in `types.ts`).
Payload-facing fields keep the dynamic `JVal` type, because at runtime
they carry whatever the imported JSON supplied; app-only metadata
(`id`, `avatarUrl`, filename, timestamps, format) keeps its static
type. -/
structure Character where
  id : String
  name : JVal
  description : JVal
  personality : JVal
  firstMessage : JVal
  alternate_greetings : JVal
  scenario : JVal
  character_book : JVal
  tags : JVal
  avatarUrl : String
  qrList : JVal
  originalFilename : String
  sourceUrl : JVal
  creator_notes : JVal
  mes_example : JVal
  system_prompt : JVal
  post_history_instructions : JVal
  creator : JVal
  character_version : JVal
  extensions : JVal
  rawData : JVal
  importDate : Nat
  extra_qr_data : JVal
  qrFileName : JVal
  importFormat : String
  deriving Repr, DecidableEq

/-- `decodeBase64Utf8` from the source: strip whitespace, try
`atob` + UTF-8 decode; if `atob` throws and the whitespace-stripped
text starts with a brace, return that stripped text, otherwise throw. -/
def decodeBase64Utf8 (base64 : String) : Except String String :=
  let clean := stripWs base64
  match atobBytes clean with
  | some bytes => .ok (utf8Decode bytes)
  | none =>
    if strStarts (jsTrim clean) "\x7b" then .ok clean
    else .error "Base64 decode failed"

/-- `encodeBase64Utf8` from the source: UTF-8 encode, then `btoa`. -/
def encodeBase64Utf8 (str : String) : String := btoaStr (utf8Encode str)

/-- The two-stage interpretation of a candidate chunk text used for
known-keyword chunks:
`try { JSON.parse(decodeBase64Utf8(txt)) } catch { try { JSON.parse(txt) } catch {} }`.
`none` means both stages threw and `characterData` is left unchanged. -/
def interpretText (txt : String) : Option JVal :=
  match (match decodeBase64Utf8 txt with
         | .ok s => jparse s
         | .error _ => none) with
  | some v => some v
  | none => jparse txt

/-- The envelope unwrap step opening `buildCharacter`:
`let d = rawRoot; if (rawRoot.spec === "chara_card_v2" && rawRoot.data) d = rawRoot.data;
else if (!rawRoot.name && rawRoot.data?.name) d = rawRoot.data;`. -/
def unwrapRoot (rawRoot : JVal) : JVal :=
  if jget rawRoot "spec" = JVal.str "chara_card_v2" ∧ truthy (jget rawRoot "data") then
    jget rawRoot "data"
  else if ¬ truthy (jget rawRoot "name") ∧ truthy (jget (jget rawRoot "data") "name") then
    jget rawRoot "data"
  else rawRoot

/-- The per-entry transform inside `buildCharacter`:
`{ ...e, keysInput: Array.isArray(e.keys) ? e.keys.join(", ") : "" }`.
Reading `e.keys` off `null`/`undefined` throws in JavaScript, hence the
`Except`. -/
def addKeysInput (e : JVal) : Except String JVal :=
  match e with
  | .null => .error "TypeError: cannot read properties of null"
  | .undef => .error "TypeError: cannot read properties of undefined"
  | _ => .ok (.obj (oset (jSpreadFields e) "keysInput"
      (match jget e "keys" with
       | .arr ks => .str (jJoinElems ", " ks)
       | _ => .str "")))

/-- The character-book step of `buildCharacter`:
`if (character_book?.entries) character_book = { ...character_book,
entries: entries.map(addKeysInput) }` — a *copied* book with the
editor helper added to *copied* entries; an untouched value otherwise. -/
def importedCharacterBook (cbRaw : JVal) : Except String JVal :=
  if truthy (jget cbRaw "entries") then
    match jget cbRaw "entries" with
    | .arr l => do
        let entries ← l.mapM addKeysInput
        pure (JVal.obj (oset (jSpreadFields cbRaw) "entries" (.arr entries)))
    | _ => Except.error "TypeError: entries.map is not a function"
  else pure cbRaw

/-- The record literal `buildCharacter` returns, as a function of the
unwrapped body and the computed character book. -/
def importedRecord (d : JVal) (fileName avatarUrl id format : String)
    (importDate : Nat) (character_book : JVal) : Character :=
  let tags : List String :=
    match jget d "tags" with
    | .arr l => (l.map (fun t => jsTrim (jStringCoerce t))).filter (fun s => s ≠ "")
    | .str s => ((splitComma s).map jsTrim).filter (fun s => s ≠ "")
    | _ => []
  {
    id := id
    name := jor (jget d "name") (.str "Unknown")
    description := jor (jget d "description") (.str "")
    personality := jor (jget d "personality") (.str "")
    firstMessage := jor (jget d "first_mes") (jor (jget d "firstMessage")
      (jor (jget d "intro") (jor (jget d "greeting") (.str ""))))
    alternate_greetings := jor (jget d "alternate_greetings")
      (jor (jget d "alternate_greeting") (.arr []))
    scenario := jor (jget d "scenario") (.str "")
    character_book := character_book
    tags := .arr (tags.map JVal.str)
    avatarUrl := avatarUrl
    qrList := jor (jget d "qrList") (.arr [])
    originalFilename := fileName
    sourceUrl := jor (jget d "sourceUrl") (.str "")
    creator_notes := jor (jget d "creator_notes") (jor (jget d "creatorcomment") (.str ""))
    mes_example := jor (jget d "mes_example") (.str "")
    system_prompt := jor (jget d "system_prompt") (.str "")
    post_history_instructions := jor (jget d "post_history_instructions") (.str "")
    creator := jor (jget d "creator") (.str "")
    character_version := jor (jget d "character_version") (.str "")
    extensions := jor (jget d "extensions") (.obj [])
    rawData := d
    importDate := importDate
    extra_qr_data := jget d "extra_qr_data"
    qrFileName := .undef
    importFormat := format }

/-- `buildCharacter` from the source: unwrap the envelope, build the
typed character book (a copy with the `keysInput` editor helper), map
the known fields with their alias/default chains, and retain the
unwrapped body verbatim as `rawData`. -/
def buildCharacter (rawRoot : JVal) (fileName avatarUrl id format : String)
    (importDate : Nat) : Except String Character := do
  let d := unwrapRoot rawRoot
  let character_book ← importedCharacterBook (jget d "character_book")
  pure (importedRecord d fileName avatarUrl id format importDate character_book)

/-- The version-2 envelope returned by `buildExportData`. -/
structure STExport where
  spec : String
  spec_version : String
  data : List (String × JVal)
  deriving Repr, DecidableEq

/-- `const { keysInput, ...rest } = e; return rest;` — drop the UI-only
helper from an entry before export.  Destructuring `null`/`undefined`
throws in JavaScript, hence the `Except`. -/
def stripKeysInput (e : JVal) : Except String (List (String × JVal)) :=
  match e with
  | .null => .error "TypeError: cannot destructure null"
  | .undef => .error "TypeError: cannot destructure undefined"
  | _ => .ok ((jSpreadFields e).filter (fun p => p.1 ≠ "keysInput"))

/-- The `character_book` member of the edited-field overlay:
`character.character_book ? { ...book, entries: (book.entries || []).map(strip) } : base.character_book`. -/
def editedCharacterBook (c : Character) (base : List (String × JVal)) :
    Except String JVal :=
  if truthy c.character_book then
    match jor (jget c.character_book "entries") (.arr []) with
    | .arr l => do
        let stripped ← l.mapM (fun e => (stripKeysInput e).map JVal.obj)
        pure (JVal.obj (oset (jSpreadFields c.character_book) "entries" (.arr stripped)))
    | _ => Except.error "TypeError: entries.map is not a function"
  else pure (olookup base "character_book")

/-- The `editedFields` object literal of `buildExportData`, in source
order. -/
def editedFields (c : Character) (base : List (String × JVal)) :
    Except String (List (String × JVal)) := do
  let cb ← editedCharacterBook c base
  pure [
    ("name", c.name),
    ("description", c.description),
    ("personality", c.personality),
    ("first_mes", c.firstMessage),
    ("alternate_greetings", jor c.alternate_greetings (.arr [])),
    ("scenario", jor c.scenario (.str "")),
    ("mes_example", jor c.mes_example (.str "")),
    ("system_prompt", jor c.system_prompt (.str "")),
    ("post_history_instructions", jor c.post_history_instructions (.str "")),
    ("creator_notes", jor c.creator_notes (.str "")),
    ("creator", jor c.creator (.str "")),
    ("character_version", jor c.character_version (.str "")),
    ("tags", jor c.tags (.arr [])),
    ("extensions", jor c.extensions (.obj [])),
    ("character_book", cb)]

/-- `buildExportData` from the source:
`base = character.rawData ? { ...character.rawData } : {}`, then
`data = { ...base, ...editedFields }`, wrapped in the v2 envelope. -/
def buildExportData (c : Character) : Except String STExport := do
  let base := if truthy c.rawData then jSpreadFields c.rawData else []
  let edited ← editedFields c base
  pure ⟨"chara_card_v2", "2.0", ospread base edited⟩

/-! ## Quick-reply export objects -/

/-- The fixed scaffold of `exportQrData`'s object literal. -/
def qrScaffold : List (String × JVal) :=
  [("version", .num 2), ("name", .str "QR Export"),
   ("disableSend", .bool false), ("placeBeforeInput", .bool false),
   ("injectInput", .bool false), ("color", .str "rgba(0, 0, 0, 0)"),
   ("onlyBorderColor", .bool false)]

/-- The export object built by `exportQrData`:
`{ ...scaffold, ...extraData, qrList }` (the trailing `qrList` member is
assigned after the spread). -/
def exportQrData (qrList : JVal) (extraData : JVal) : List (String × JVal) :=
  oset (ospread qrScaffold (jSpreadFields extraData)) "qrList" qrList

/-- The quick-reply object written into ZIP/package exports by both
`exportCharacterData` and `exportBulkCharacters`:
`{ version: 2, name: char.name + " QR", qrList: char.qrList, ...(char.extra_qr_data || {}) }`
— note the spread comes *after* `qrList` here. -/
def zipQrData (c : Character) : List (String × JVal) :=
  ospread [("version", .num 2), ("name", .str (jStringCoerce c.name ++ " QR")),
    ("qrList", c.qrList)] (jSpreadFields (jor c.extra_qr_data (.obj [])))

/-! ## CRC32 utility (source lines 593-604)

All arithmetic is on `Nat` values kept below `2^32`; the JavaScript
signed/unsigned distinction never changes the 32-bit pattern these
operations produce, so the unsigned model is bit-faithful. -/

/-- One bit step of the table construction:
`c & 1 ? 0xedb88320 ^ (c >>> 1) : c >>> 1`. -/
def crcBitStep (c : Nat) : Nat :=
  if c % 2 = 1 then 0xedb88320 ^^^ (c / 2) else c / 2

/-- `crcTable[n]`: eight bit steps applied to `n`, exactly as the
source's table-filling loop computes it. -/
def crcTable (n : Nat) : Nat := crcBitStep^[8] n

/-- One byte of the table-driven loop:
`crc = crcTable[(crc ^ buf[i]) & 0xff] ^ (crc >>> 8)`. -/
def crc32Step (crc b : Nat) : Nat := crcTable ((crc ^^^ b) &&& 0xff) ^^^ crc / 2 ^ 8

/-- `crc32` from the source (init `0xffffffff`, final XOR, result the
unsigned 32-bit value). -/
def crc32 (buf : List Nat) : Nat := buf.foldl crc32Step 0xffffffff ^^^ 0xffffffff

/-! ## PNG chunk scanner (`parseCharacterCard`, pure byte-level part)

The source walks the buffer with a mutable `offset`; the embedding
consumes the identical byte suffix `bytes.drop offset` instead, which
renders `readText(buffer, start, len)` as `utf8Decode` of a
`drop`/`take` slice and the offset bumps as `List.drop`. -/

/-- `DataView.getUint32` (big-endian) of the first four bytes; the
catch-all is unreachable at every call site (guarded by length
checks). -/
def u32beOf : List Nat → Nat
  | a :: b :: c :: d :: _ => ((a * 256 + b) * 256 + c) * 256 + d
  | _ => 0

/-- Big-endian bytes of a 32-bit value, as `DataView.setUint32` writes
them (wrapping at `2^32`). -/
def u32beBytes (n : Nat) : List Nat :=
  [n / 2 ^ 24 % 256, n / 2 ^ 16 % 256, n / 2 ^ 8 % 256, n % 256]

/-- The mutable state of the chunk walk: `characterData` (initially
`null`) and the ordered `fallbackChunks` list. -/
structure ScanState where
  characterData : JVal
  fallbackChunks : List String
  deriving Repr, DecidableEq

/-- The known card-bearing keywords (`KNOWN_KEYS`). -/
def KNOWN_KEYS : List String := ["chara", "character", "tavern", "sillytavern", "ccv3"]

/-- `txt.trim().startsWith("{") || txt.trim().startsWith("ey")`. -/
def isFallbackCandidate (txt : String) : Bool :=
  strStarts (jsTrim txt) "\x7b" || strStarts (jsTrim txt) "ey"

/-- Record a decoded chunk text: push a fallback candidate, and when
the keyword qualifies, run the two-stage interpretation, overwriting
`characterData` on success. -/
def applyCardText (txt : String) (knownOk : Bool) (st : ScanState) : ScanState :=
  let st1 := if isFallbackCandidate txt then
      { st with fallbackChunks := st.fallbackChunks ++ [txt] }
    else st
  if knownOk then
    match interpretText txt with
    | some v => { st1 with characterData := v }
    | none => st1
  else st1

/-- Index of the first NUL byte of a payload (the keyword separator
scan). -/
def findZero (payload : List Nat) : Option Nat := payload.findIdx? (fun b => b = 0)

/-- Process one chunk's payload according to its type (`tEXt`, `zTXt`,
`iTXt`; anything else is skipped). -/
def processChunk (inflate : List Nat → Option String) (ctype : String)
    (payload : List Nat) (st : ScanState) : ScanState :=
  if ctype = "tEXt" then
    match findZero payload with
    | some sep =>
      let kw := lowerStr (utf8Decode (payload.take sep))
      let txt := utf8Decode (payload.drop (sep + 1))
      applyCardText txt (KNOWN_KEYS.contains kw) st
    | none => st
  else if ctype = "zTXt" then
    match findZero payload with
    | some sep =>
      let kw := lowerStr (utf8Decode (payload.take sep))
      match inflate (payload.drop (sep + 2)) with
      | some txt =>
        if txt ≠ "" then applyCardText txt (KNOWN_KEYS.contains kw) st else st
      | none => st
    | none => st
  else if ctype = "iTXt" then
    match findZero payload with
    | some sep =>
      let kw := lowerStr (utf8Decode (payload.take sep))
      let compFlag := payload.get? (sep + 1)
      match (List.range payload.length).filter
          (fun j => sep + 3 ≤ j && payload.getD j 1 = 0) with
      | _ :: j2 :: _ =>
        let textStart := j2 + 1
        if textStart < payload.length then
          let raw := payload.drop textStart
          let txt := if compFlag = some 1 then (inflate raw).getD "" else utf8Decode raw
          if txt ≠ "" then applyCardText txt (KNOWN_KEYS.contains kw || kw = "") st
          else st
        else st
      | _ => st
    | none => st
  else st

/-- Fuel-driven body of the chunk walk: stop when fewer than 8 header
bytes remain, or when the declared payload length runs past the buffer
end; otherwise process the payload and skip `length + 4` CRC bytes past
the header.  Every iteration consumes at least 12 bytes, so the fuel
chosen by `scanChunks` never runs out (`scanChunksF_fuel` below). -/
def scanChunksF (inflate : List Nat → Option String) :
    Nat → List Nat → ScanState → ScanState
  | 0, _, st => st
  | fuel + 1, rest, st =>
    if rest.length < 8 then st
    else
      let length := u32beOf (rest.take 4)
      let ctype := utf8Decode ((rest.drop 4).take 4)
      if 8 + length > rest.length then st
      else
        scanChunksF inflate fuel (rest.drop (12 + length))
          (processChunk inflate ctype ((rest.drop 8).take length) st)

/-- The chunk walk of `parseCharacterCard`. -/
def scanChunks (inflate : List Nat → Option String) (rest : List Nat)
    (st : ScanState) : ScanState :=
  scanChunksF inflate (rest.length + 1) rest st

/-- The 8-byte PNG signature. -/
def PNG_SIG : List Nat := [137, 80, 78, 71, 13, 10, 26, 10]

/-- The not-a-PNG error message thrown on a signature mismatch. -/
def notPngMsg : String := "不是有效的 PNG 文件"

/-- The no-card-data error message. -/
def noCardMsg : String := "未在此图片中找到角色数据。请确保这是标准的 Tavern PNG 角色卡。"

/-- `d.name || d.data?.name` — the fallback acceptance test. -/
def namedCard (d : JVal) : Bool :=
  truthy (jget d "name") || truthy (jget (jget d "data") "name")

/-- The fallback loop: first try base64-then-JSON; if that whole stage
threw, try raw JSON; accept the first *successfully parsed* object that
passes `namedCard` (a successful first-stage parse that fails
`namedCard` skips the chunk without attempting the raw parse, since no
exception reaches the `catch`). -/
def fallbackScan : List String → Option JVal
  | [] => none
  | c :: rest =>
    match (match decodeBase64Utf8 c with
           | .ok s => jparse s
           | .error _ => none) with
    | some d => if namedCard d then some d else fallbackScan rest
    | none =>
      match jparse c with
      | some d => if namedCard d then some d else fallbackScan rest
      | none => fallbackScan rest

/-- The post-walk steps of `parseCharacterCard`: run the fallback loop
when no truthy `characterData` was recorded and candidates exist, then
throw the no-card error unless the result is truthy. -/
def finalizeScan (st : ScanState) : Except String JVal :=
  let cd := if ¬ truthy st.characterData ∧ st.fallbackChunks ≠ [] then
      (fallbackScan st.fallbackChunks).getD st.characterData
    else st.characterData
  if truthy cd then .ok cd else .error noCardMsg

/-- The pure byte-level part of `parseCharacterCard`: signature check,
chunk walk, fallback scan, no-card error.  Returns the `characterData`
value handed to `buildCharacter`. -/
def parseCharacterCardData (inflate : List Nat → Option String)
    (bytes : List Nat) : Except String JVal :=
  if bytes.take 8 ≠ PNG_SIG then .error notPngMsg
  else finalizeScan (scanChunks inflate (bytes.drop 8) ⟨.null, []⟩)

/-- Full `parseCharacterCard` (modulo the browser file/blob plumbing):
locate the card data, then `buildCharacter` on it. -/
def parseCharacterCardModel (inflate : List Nat → Option String)
    (bytes : List Nat) (fileName avatarUrl id : String) (importDate : Nat) :
    Except String Character :=
  (parseCharacterCardData inflate bytes).bind
    (fun d => buildCharacter d fileName avatarUrl id "png" importDate)

/-! ## PNG chunk writer (`createTavernPng`, pure byte-level part) -/

/-- `target.set(xs, pos)` on a fixed-size buffer: overwrite in place
(every call site writes within bounds). -/
def writeAt (l : List Nat) (pos : Nat) (xs : List Nat) : List Nat :=
  l.take pos ++ xs.take (l.length - pos) ++ l.drop (pos + xs.length)

/-- The IEND scan: first index `i` with bytes `I`,`E`,`N`,`D` at
`i..i+3`, over `0 ≤ i < length - 7`. -/
def findIend (png : List Nat) : Option Nat :=
  (List.range (png.length - 7)).find? (fun i =>
    png.getD i 0 = 0x49 && png.getD (i + 1) 0 = 0x45 &&
    png.getD (i + 2) 0 = 0x4e && png.getD (i + 3) 0 = 0x44)

/-- `{spec, spec_version, data}` as a dynamic value (the argument
`JSON.stringify` receives). -/
def stExportJVal (e : STExport) : JVal :=
  .obj [("spec", .str e.spec), ("spec_version", .str e.spec_version),
    ("data", .obj e.data)]

/-- `textBytes`: the UTF-8 bytes of the base64 text written into the
chunk. -/
def tavernText (exportRoot : STExport) : List Nat :=
  utf8Encode (encodeBase64Utf8 (jstringify (stExportJVal exportRoot)))

/-- `chunkLength = keywordBytes.length + 1 + textBytes.length`. -/
def tavernChunkLength (exportRoot : STExport) : Nat :=
  (utf8Encode "chara").length + 1 + (tavernText exportRoot).length

/-- `new Uint8Array(4 + 4 + chunkLength + 4)` (zero-filled). -/
def tavernBuf0 (e : STExport) : List Nat :=
  List.replicate (4 + 4 + tavernChunkLength e + 4) 0

/-- `view.setUint32(0, chunkLength)`. -/
def tavernBuf1 (e : STExport) : List Nat :=
  writeAt (tavernBuf0 e) 0 (u32beBytes (tavernChunkLength e))

/-- `chunkBuffer.set([116, 69, 88, 116], 4)` (the ASCII type `tEXt`). -/
def tavernBuf2 (e : STExport) : List Nat :=
  writeAt (tavernBuf1 e) 4 [116, 69, 88, 116]

/-- `chunkBuffer.set(keywordBytes, 8)`. -/
def tavernBuf3 (e : STExport) : List Nat :=
  writeAt (tavernBuf2 e) 8 (utf8Encode "chara")

/-- `chunkBuffer[8 + keywordBytes.length] = 0`. -/
def tavernBuf4 (e : STExport) : List Nat :=
  writeAt (tavernBuf3 e) (8 + (utf8Encode "chara").length) [0]

/-- `chunkBuffer.set(textBytes, 8 + keywordBytes.length + 1)`. -/
def tavernBuf5 (e : STExport) : List Nat :=
  writeAt (tavernBuf4 e) (8 + (utf8Encode "chara").length + 1) (tavernText e)

/-- `crcInput = chunkBuffer.slice(4, 4 + 4 + chunkLength)`. -/
def tavernCrcInput (e : STExport) : List Nat :=
  ((tavernBuf5 e).drop 4).take (4 + tavernChunkLength e)

/-- The complete `tEXt` chunk buffer built by `createTavernPng`:
the buffer writes above followed by
`view.setUint32(4 + 4 + chunkLength, crc32(crcInput))`. -/
def tavernChunk (e : STExport) : List Nat :=
  writeAt (tavernBuf5 e) (4 + 4 + tavernChunkLength e)
    (u32beBytes (crc32 (tavernCrcInput e)))

/-- The type-plus-payload byte sequence of the injected chunk (the
input of its CRC). -/
def tavernTypePayload (e : STExport) : List Nat :=
  [116, 69, 88, 116] ++ utf8Encode "chara" ++ [0] ++ tavernText e

/-- The pure byte-level part of `createTavernPng`: build the export
envelope and its `tEXt` chunk, locate `IEND`, and splice.  `png` is the
canvas-re-encoded avatar buffer.  (`i - 4` is Nat subtraction; every
theorem below supplies a PNG-signature hypothesis under which the first
match index satisfies `i ≥ 8`, so it agrees with JavaScript.) -/
def createTavernPngBytes (c : Character) (png : List Nat) :
    Except String (List Nat) := do
  let exportRoot ← buildExportData c
  let chunkBuffer := tavernChunk exportRoot
  match findIend png with
  | none => Except.error "Invalid PNG: No IEND chunk found"
  | some i =>
    let iendOffset := i - 4
    let final0 := List.replicate (png.length + chunkBuffer.length) 0
    let final1 := writeAt final0 0 (png.take iendOffset)
    let final2 := writeAt final1 iendOffset chunkBuffer
    let final3 := writeAt final2 (iendOffset + chunkBuffer.length) (png.drop iendOffset)
    pure final3

/-! ## Lemmas about the ordered-object operations -/

/-- Key list of an object. -/
def okeys (o : List (String × JVal)) : List String := o.map Prod.fst

theorem hasKey_iff_mem (o : List (String × JVal)) (k : String) :
    hasKey o k = true ↔ k ∈ okeys o := by
  simp [hasKey, okeys, List.any_eq_true, List.mem_map, beq_iff_eq]

theorem hasKey_false_iff (o : List (String × JVal)) (k : String) :
    hasKey o k = false ↔ k ∉ okeys o := by
  rw [← Bool.not_eq_true, not_iff_not]
  exact hasKey_iff_mem o k

theorem olookup_eq_undef_of_not_mem (o : List (String × JVal)) (k : String)
    (h : k ∉ okeys o) : olookup o k = .undef := by
  induction o with
  | nil => rfl
  | cons p t ih =>
    simp only [okeys, List.map_cons, List.mem_cons, not_or] at h
    have h1 : p.1 ≠ k := fun he => h.1 he.symm
    simp [olookup, h1, ih (by simpa [okeys] using h.2)]

theorem hasKey_cons (p : String × JVal) (t : List (String × JVal)) (k : String) :
    hasKey (p :: t) k = (p.1 == k || hasKey t k) := by
  simp [hasKey, List.any_cons]

theorem olookup_append (o1 o2 : List (String × JVal)) (k : String) :
    olookup (o1 ++ o2) k = if hasKey o1 k then olookup o1 k else olookup o2 k := by
  induction o1 with
  | nil => simp [olookup, hasKey]
  | cons p t ih =>
    obtain ⟨pk, pv⟩ := p
    by_cases hp : pk = k
    · simp [olookup, hasKey_cons, hp]
    · have hh : hasKey ((pk, pv) :: t) k = hasKey t k := by simp [hasKey_cons, hp]
      rw [List.cons_append, olookup, if_neg hp, hh, ih, olookup, if_neg hp]

theorem olookup_map_replace (o : List (String × JVal)) (k : String) (v : JVal)
    (h : k ∈ okeys o) :
    olookup (o.map (fun p => if p.1 = k then (p.1, v) else p)) k = v := by
  induction o with
  | nil => simp [okeys] at h
  | cons p t ih =>
    obtain ⟨pk, pv⟩ := p
    by_cases hp : pk = k
    · rw [List.map_cons, if_pos hp]
      simp [olookup, hp]
    · have ht : k ∈ okeys t := by
        simp only [okeys, List.map_cons, List.mem_cons] at h
        rcases h with h | h
        · exact absurd h.symm hp
        · simpa [okeys] using h
      rw [List.map_cons, if_neg hp, olookup, if_neg hp]
      exact ih ht

theorem olookup_map_replace_other (o : List (String × JVal)) (k : String) (v : JVal)
    (k' : String) (hne : k' ≠ k) :
    olookup (o.map (fun p => if p.1 = k then (p.1, v) else p)) k' = olookup o k' := by
  induction o with
  | nil => rfl
  | cons p t ih =>
    obtain ⟨pk, pv⟩ := p
    by_cases hp : pk = k
    · have hp' : pk ≠ k' := fun he => hne (he.symm.trans hp)
      have hk' : k ≠ k' := Ne.symm hne
      rw [List.map_cons, if_pos hp, olookup, if_neg (hp ▸ hk'), olookup, if_neg hp']
      exact ih
    · rw [List.map_cons, if_neg hp]
      by_cases hp' : pk = k'
      · simp [olookup, hp']
      · rw [olookup, if_neg hp', olookup, if_neg hp']
        exact ih

theorem olookup_oset_self (o : List (String × JVal)) (k : String) (v : JVal) :
    olookup (oset o k v) k = v := by
  unfold oset
  by_cases h : hasKey o k = true
  · simpa [h] using olookup_map_replace o k v ((hasKey_iff_mem o k).mp h)
  · have hnm : k ∉ okeys o := (hasKey_false_iff o k).mp (by simpa using h)
    rw [if_neg (by simp [h]), olookup_append, if_neg (by simp [h])]
    simp [olookup]

theorem olookup_oset_other (o : List (String × JVal)) (k : String) (v : JVal)
    (k' : String) (hne : k' ≠ k) : olookup (oset o k v) k' = olookup o k' := by
  unfold oset
  by_cases h : hasKey o k = true
  · simpa [h] using olookup_map_replace_other o k v k' hne
  · rw [if_neg (by simp [h]), olookup_append]
    by_cases h' : hasKey o k' = true
    · simp [h']
    · have hnm : k' ∉ okeys o := (hasKey_false_iff o k').mp (by simpa using h')
      simp [h', olookup, Ne.symm hne, olookup_eq_undef_of_not_mem o k' hnm]

theorem okeys_oset (o : List (String × JVal)) (k : String) (v : JVal) :
    okeys (oset o k v) = if hasKey o k then okeys o else okeys o ++ [k] := by
  unfold oset
  by_cases h : hasKey o k = true
  · simp only [h, if_true, okeys, List.map_map]
    congr 1
    funext p
    by_cases hp : p.1 = k <;> simp [Function.comp, hp]
  · simp [h, okeys]

theorem okeys_oset_nodup (o : List (String × JVal)) (k : String) (v : JVal)
    (h : (okeys o).Nodup) : (okeys (oset o k v)).Nodup := by
  rw [okeys_oset]
  by_cases hk : hasKey o k = true
  · simpa [hk]
  · have hnm : k ∉ okeys o := (hasKey_false_iff o k).mp (by simpa using hk)
    simp [hk, List.nodup_append, h, hnm]

theorem ospread_nil (a : List (String × JVal)) : ospread a [] = a := rfl

theorem ospread_cons (a : List (String × JVal)) (k : String) (v : JVal)
    (b : List (String × JVal)) : ospread a ((k, v) :: b) = ospread (oset a k v) b := rfl

theorem olookup_ospread (a b : List (String × JVal)) (k : String)
    (hb : (okeys b).Nodup) :
    olookup (ospread a b) k = if hasKey b k then olookup b k else olookup a k := by
  induction b generalizing a with
  | nil => simp [ospread, hasKey]
  | cons p b' ih =>
    obtain ⟨k0, v0⟩ := p
    have hcons : k0 ∉ okeys b' ∧ (okeys b').Nodup := by
      simpa [okeys, List.nodup_cons] using hb
    rw [ospread_cons, ih (oset a k0 v0) hcons.2]
    by_cases hk : k = k0
    · subst hk
      have hb' : hasKey b' k = false := (hasKey_false_iff b' k).mpr hcons.1
      simp [hb', hasKey_cons, olookup, olookup_oset_self]
    · have hh : hasKey ((k0, v0) :: b') k = hasKey b' k := by
        simp [hasKey_cons, Ne.symm hk]
      rw [hh]
      by_cases hbk : hasKey b' k = true
      · simp [hbk, olookup, Ne.symm hk]
      · simp [hbk, olookup, Ne.symm hk, olookup_oset_other a k0 v0 k hk]

theorem okeys_ospread_of_subset (a b : List (String × JVal))
    (h : ∀ k ∈ okeys b, k ∈ okeys a) : okeys (ospread a b) = okeys a := by
  induction b generalizing a with
  | nil => rfl
  | cons p b' ih =>
    obtain ⟨k0, v0⟩ := p
    have h0 : k0 ∈ okeys a := h k0 (by simp [okeys])
    have hset : okeys (oset a k0 v0) = okeys a := by
      rw [okeys_oset, if_pos ((hasKey_iff_mem a k0).mpr h0)]
    rw [ospread_cons, ih (oset a k0 v0) (fun k hk => by
      rw [hset]
      refine h k ?_
      simp only [okeys, List.map_cons]
      exact List.mem_cons_of_mem _ (by simpa [okeys] using hk))]
    exact hset

theorem mem_okeys_ospread_left (a b : List (String × JVal)) (k : String)
    (h : k ∈ okeys a) : k ∈ okeys (ospread a b) := by
  induction b generalizing a with
  | nil => exact h
  | cons p b' ih =>
    obtain ⟨k0, v0⟩ := p
    rw [ospread_cons]
    refine ih (oset a k0 v0) ?_
    rw [okeys_oset]
    by_cases hk : hasKey a k0 = true
    · simpa [hk]
    · simp [hk, h]

theorem mem_okeys_ospread_right (a b : List (String × JVal)) (k : String)
    (h : k ∈ okeys b) : k ∈ okeys (ospread a b) := by
  induction b generalizing a with
  | nil => simp [okeys] at h
  | cons p b' ih =>
    obtain ⟨k0, v0⟩ := p
    rw [ospread_cons]
    simp only [okeys, List.map_cons, List.mem_cons] at h
    rcases h with h | h
    · subst h
      refine mem_okeys_ospread_left (oset a k v0) b' k ?_
      rw [okeys_oset]
      by_cases hk : hasKey a k = true
      · simpa [hk] using (hasKey_iff_mem a k).mp hk
      · simp [hk]
    · exact ih (oset a k0 v0) (by simpa [okeys] using h)

theorem okeys_ospread_nodup (a b : List (String × JVal))
    (h : (okeys a).Nodup) : (okeys (ospread a b)).Nodup := by
  induction b generalizing a with
  | nil => exact h
  | cons p b' ih =>
    obtain ⟨k0, v0⟩ := p
    rw [ospread_cons]
    exact ih (oset a k0 v0) (okeys_oset_nodup a k0 v0 h)

theorem oext (o1 o2 : List (String × JVal)) (hnd : (okeys o1).Nodup)
    (hk : okeys o1 = okeys o2) (hl : ∀ k, olookup o1 k = olookup o2 k) :
    o1 = o2 := by
  induction o1 generalizing o2 with
  | nil =>
    cases o2 with
    | nil => rfl
    | cons q t2 => simp [okeys] at hk
  | cons p t1 ih =>
    obtain ⟨k, v⟩ := p
    cases o2 with
    | nil => simp [okeys] at hk
    | cons q t2 =>
      obtain ⟨k2, v2⟩ := q
      simp only [okeys, List.map_cons, List.cons.injEq] at hk
      have hkk : k = k2 := hk.1
      subst hkk
      have hv : v = v2 := by
        have := hl k
        simpa [olookup] using this
      subst hv
      have hcons : k ∉ okeys t1 ∧ (okeys t1).Nodup := by
        simpa [okeys, List.nodup_cons] using hnd
      have hk2 : okeys t1 = okeys t2 := hk.2
      refine congrArg (List.cons (k, v)) (ih t2 hcons.2 hk2 (fun k' => ?_))
      by_cases hk' : k' = k
      · subst hk'
        rw [olookup_eq_undef_of_not_mem t1 k' hcons.1,
          olookup_eq_undef_of_not_mem t2 k' (hk2 ▸ hcons.1)]
      · have hkk' : k ≠ k' := fun h => hk' h.symm
        have := hl k'
        simpa [olookup, hkk'] using this

theorem ospread_idem (a b : List (String × JVal)) (hna : (okeys a).Nodup)
    (hnb : (okeys b).Nodup) : ospread (ospread a b) b = ospread a b := by
  have hndD : (okeys (ospread a b)).Nodup := okeys_ospread_nodup a b hna
  refine oext _ _ (okeys_ospread_nodup (ospread a b) b hndD) ?_ ?_
  · exact okeys_ospread_of_subset (ospread a b) b
      (fun k hk => mem_okeys_ospread_right a b k hk)
  · intro k
    rw [olookup_ospread (ospread a b) b k hnb, olookup_ospread a b k hnb]
    by_cases hbk : hasKey b k = true
    · simp [hbk]
    · simp [hbk, olookup_ospread a b k hnb]

theorem ospread_nil_left_eq (o : List (String × JVal))
    (h : (okeys o).Nodup) : ospread [] o = o := by
  suffices haux : ∀ acc, (okeys (acc ++ o)).Nodup → ospread acc o = acc ++ o by
    simpa using haux [] (by simpa [okeys] using h)
  clear h
  induction o with
  | nil => intro acc _; simp [ospread]
  | cons p t ih =>
    intro acc hacc
    obtain ⟨k, v⟩ := p
    have hknot : k ∉ okeys acc := by
      intro hmem
      have hnd := hacc
      simp only [okeys, List.map_append, List.map_cons] at hnd
      have h2 := (List.nodup_append.mp hnd).2.2
      exact h2 (by simpa [okeys] using hmem) (by simp)
    have hset : oset acc k v = acc ++ [(k, v)] := by
      unfold oset
      rw [if_neg (by simp [(hasKey_false_iff acc k).mpr hknot])]
    have hacc' : (okeys ((acc ++ [(k, v)]) ++ t)).Nodup := by
      have he : (acc ++ [(k, v)]) ++ t = acc ++ (k, v) :: t := by simp
      rw [he]
      exact hacc
    rw [ospread_cons, hset, ih (acc ++ [(k, v)]) hacc']
    simp

/-! ## Unfolding lemmas for `buildExportData` -/

/-- The `base` object of `buildExportData`. -/
def exportBase (c : Character) : List (String × JVal) :=
  if truthy c.rawData then jSpreadFields c.rawData else []

/-- The edited-field overlay as a function of the computed
`character_book` member. -/
def editedList (c : Character) (cb : JVal) : List (String × JVal) :=
  [("name", c.name),
   ("description", c.description),
   ("personality", c.personality),
   ("first_mes", c.firstMessage),
   ("alternate_greetings", jor c.alternate_greetings (.arr [])),
   ("scenario", jor c.scenario (.str "")),
   ("mes_example", jor c.mes_example (.str "")),
   ("system_prompt", jor c.system_prompt (.str "")),
   ("post_history_instructions", jor c.post_history_instructions (.str "")),
   ("creator_notes", jor c.creator_notes (.str "")),
   ("creator", jor c.creator (.str "")),
   ("character_version", jor c.character_version (.str "")),
   ("tags", jor c.tags (.arr [])),
   ("extensions", jor c.extensions (.obj [])),
   ("character_book", cb)]

/-- The typed/editable keys of the export overlay. -/
def editedKeys : List String :=
  ["name", "description", "personality", "first_mes", "alternate_greetings",
   "scenario", "mes_example", "system_prompt", "post_history_instructions",
   "creator_notes", "creator", "character_version", "tags", "extensions",
   "character_book"]

theorem editedFields_eq (c : Character) (base : List (String × JVal)) :
    editedFields c base = (editedCharacterBook c base).map (editedList c) := by
  cases h : editedCharacterBook c base <;>
    simp [editedFields, editedList, h, Except.map]

theorem buildExportData_eq (c : Character) :
    buildExportData c = (editedCharacterBook c (exportBase c)).map
      (fun cb =>
        ⟨"chara_card_v2", "2.0", ospread (exportBase c) (editedList c cb)⟩) := by
  have hb : (if truthy c.rawData = true then jSpreadFields c.rawData else []) =
      exportBase c := rfl
  unfold buildExportData
  rw [hb]
  simp only [editedFields_eq]
  cases h : editedCharacterBook c (exportBase c) <;> simp [h, Except.map]

theorem okeys_editedList (c : Character) (cb : JVal) :
    okeys (editedList c cb) = editedKeys := by
  simp [editedList, editedKeys, okeys]

theorem editedKeys_nodup : editedKeys.Nodup := by decide

theorem jor_str_empty (s : String) : jor (.str s) (.str "") = .str s := by
  by_cases h : s = "" <;> simp [jor, truthy, h]

/-- **C1** (round-trip losslessness of the export merge): for every
character record whose `rawData` snapshot is an object carrying a key
`k` unknown to the typed field set, the export data object maps `k` to
its unchanged original value; every typed/editable key reflects the
record's current value, taking precedence over a same-named `rawData`
key; and re-importing the export body as the new `rawData` (the unwrap
of the produced v2 envelope) and exporting again reproduces the same
envelope, hence the same data object for every further repetition of
the cycle. -/
theorem C1_export_merge_roundtrip
    (c : Character) (o : List (String × JVal)) (env : STExport) (k : String)
    (hraw : c.rawData = JVal.obj o)
    (hnd : (okeys o).Nodup)
    (hE : buildExportData c = .ok env)
    (hko : k ∉ editedKeys) (hkIn : hasKey o k = true) :
    olookup env.data k = olookup o k ∧
    olookup env.data "name" = c.name ∧
    olookup env.data "description" = c.description ∧
    olookup env.data "personality" = c.personality ∧
    olookup env.data "first_mes" = c.firstMessage ∧
    (∀ l, c.alternate_greetings = JVal.arr l →
      olookup env.data "alternate_greetings" = c.alternate_greetings) ∧
    (∀ s, c.scenario = JVal.str s → olookup env.data "scenario" = c.scenario) ∧
    (∀ l, c.tags = JVal.arr l → olookup env.data "tags" = c.tags) ∧
    (∀ e, c.extensions = JVal.obj e → olookup env.data "extensions" = c.extensions) ∧
    buildExportData { c with rawData := JVal.obj env.data } = .ok env := by
  rw [buildExportData_eq] at hE
  have hbase : exportBase c = o := by
    simp only [exportBase, hraw, truthy, if_true]
    exact ospread_nil_left_eq o hnd
  rw [hbase] at hE
  cases hcb : editedCharacterBook c o with
  | error e => rw [hcb] at hE; simp [Except.map] at hE
  | ok cb =>
    rw [hcb] at hE
    simp only [Except.map, Except.ok.injEq] at hE
    have henv : env = ⟨"chara_card_v2", "2.0", ospread o (editedList c cb)⟩ := hE.symm
    subst henv
    set ed := editedList c cb with hed
    have hndEd : (okeys ed).Nodup := by
      rw [hed, okeys_editedList]; exact editedKeys_nodup
    have hlook := fun k' => olookup_ospread o ed k' hndEd
    have hKedF : hasKey ed k = false := by
      apply (hasKey_false_iff ed k).mpr
      rw [hed, okeys_editedList]
      exact hko
    refine ⟨?_, ?_, ?_, ?_, ?_, ?_, ?_, ?_, ?_, ?_⟩
    · rw [hlook k, if_neg (by simp [hKedF])]
    · rw [hlook "name", if_pos (by rw [hed]; simp [editedList, hasKey])]
      simp [hed, editedList, olookup]
    · rw [hlook "description", if_pos (by rw [hed]; simp [editedList, hasKey])]
      simp [hed, editedList, olookup]
    · rw [hlook "personality", if_pos (by rw [hed]; simp [editedList, hasKey])]
      simp [hed, editedList, olookup]
    · rw [hlook "first_mes", if_pos (by rw [hed]; simp [editedList, hasKey])]
      simp [hed, editedList, olookup]
    · intro l hl
      rw [hlook "alternate_greetings", if_pos (by rw [hed]; simp [editedList, hasKey])]
      simp [hed, editedList, olookup, hl, jor, truthy]
    · intro s hs
      rw [hlook "scenario", if_pos (by rw [hed]; simp [editedList, hasKey])]
      simp only [hed, editedList, olookup]
      simp only [hs]
      rw [jor_str_empty]
      simp [olookup]
    · intro l hl
      rw [hlook "tags", if_pos (by rw [hed]; simp [editedList, hasKey])]
      simp [hed, editedList, olookup, hl, jor, truthy]
    · intro e he
      rw [hlook "extensions", if_pos (by rw [hed]; simp [editedList, hasKey])]
      simp [hed, editedList, olookup, he, jor, truthy]
    · -- the merge→unwrap→merge cycle is a fixed point
      have hndD : (okeys (ospread o ed)).Nodup := okeys_ospread_nodup o ed hnd
      rw [buildExportData_eq]
      have hbase' : exportBase { c with rawData := JVal.obj (ospread o ed) } =
          ospread o ed := by
        simp only [exportBase, truthy, if_true]
        exact ospread_nil_left_eq _ hndD
      rw [hbase']
      have hcbD : olookup (ospread o ed) "character_book" = cb := by
        rw [hlook "character_book", if_pos (by rw [hed]; simp [editedList, hasKey])]
        simp [hed, editedList, olookup]
      have hcb' : editedCharacterBook { c with rawData := JVal.obj (ospread o ed) }
          (ospread o ed) = .ok cb := by
        by_cases ht : truthy c.character_book = true
        · have h1 : editedCharacterBook { c with rawData := JVal.obj (ospread o ed) }
              (ospread o ed) = editedCharacterBook c o := by
            simp only [editedCharacterBook, ht, if_true]
          rw [h1, hcb]
        · have h2 : cb = olookup o "character_book" := by
            simp only [editedCharacterBook, ht, Bool.false_eq_true, if_false,
              pure, Except.pure, Except.ok.injEq] at hcb
            exact hcb.symm
          simp only [editedCharacterBook, ht, Bool.false_eq_true, if_false]
          rw [hcbD]
          rfl
      rw [hcb']
      simp only [Except.map, Except.ok.injEq, STExport.mk.injEq]
      have hEdEq : editedList { c with rawData := JVal.obj (ospread o ed) } cb = ed := rfl
      rw [hEdEq, ospread_idem o ed hnd hndEd]
      simp

/-- Concrete `rawData` fields for the C1 witness: one unknown key plus
a `name` that the edit overrides. -/
def witRawFields : List (String × JVal) :=
  [("custom_field", .str "keepme"), ("name", .str "Old")]

/-- Concrete character record for the C1 witness. -/
def witChar : Character :=
  { id := "id0", name := .str "New", description := .str "d", personality := .str "p",
    firstMessage := .str "hi", alternate_greetings := .arr [.str "yo"],
    scenario := .str "s", character_book := .undef, tags := .arr [.str "t1"],
    avatarUrl := "", qrList := .arr [], originalFilename := "card.png",
    sourceUrl := .str "", creator_notes := .str "", mes_example := .str "",
    system_prompt := .str "", post_history_instructions := .str "",
    creator := .str "", character_version := .str "", extensions := .obj [],
    rawData := .obj witRawFields,
    importDate := 0, extra_qr_data := .undef, qrFileName := .undef,
    importFormat := "png" }

/-- The export envelope `buildExportData` produces for `witChar`. -/
def witEnv : STExport :=
  ⟨"chara_card_v2", "2.0",
   [("custom_field", JVal.str "keepme"),
    ("name", JVal.str "New"),
    ("description", JVal.str "d"),
    ("personality", JVal.str "p"),
    ("first_mes", JVal.str "hi"),
    ("alternate_greetings", JVal.arr [JVal.str "yo"]),
    ("scenario", JVal.str "s"),
    ("mes_example", JVal.str ""),
    ("system_prompt", JVal.str ""),
    ("post_history_instructions", JVal.str ""),
    ("creator_notes", JVal.str ""),
    ("creator", JVal.str ""),
    ("character_version", JVal.str ""),
    ("tags", JVal.arr [JVal.str "t1"]),
    ("extensions", JVal.obj []),
    ("character_book", JVal.undef)]⟩

/-- Witness for C1 at a concrete record: the unknown key survives, the
edited `name` wins over the raw one, and the cycle is a fixed point. -/
theorem C1_export_merge_roundtrip_witness :
    olookup witEnv.data "custom_field" = olookup witRawFields "custom_field" ∧
    olookup witEnv.data "name" = witChar.name ∧
    olookup witEnv.data "description" = witChar.description ∧
    olookup witEnv.data "personality" = witChar.personality ∧
    olookup witEnv.data "first_mes" = witChar.firstMessage ∧
    (∀ l, witChar.alternate_greetings = JVal.arr l →
      olookup witEnv.data "alternate_greetings" = witChar.alternate_greetings) ∧
    (∀ s, witChar.scenario = JVal.str s →
      olookup witEnv.data "scenario" = witChar.scenario) ∧
    (∀ l, witChar.tags = JVal.arr l → olookup witEnv.data "tags" = witChar.tags) ∧
    (∀ e, witChar.extensions = JVal.obj e →
      olookup witEnv.data "extensions" = witChar.extensions) ∧
    buildExportData { witChar with rawData := JVal.obj witEnv.data } = .ok witEnv :=
  C1_export_merge_roundtrip witChar witRawFields witEnv "custom_field"
    (by decide) (by decide) (by decide) (by decide) (by decide)

/-! ## C5: the envelope unwrap rule -/

/-- Key presence on a dynamic value (only objects carry keys). -/
def hasKeyJ (v : JVal) (k : String) : Bool :=
  match v with
  | .obj o => hasKey o k
  | _ => false

/-- The unwrap rule as the claim words it (key *presence* where the
code tests JavaScript truthiness): body is `root.data` when
`root.spec = "chara_card_v2"` and `root.data` is present; else
`root.data` when root has no `name` key but `root.data.name` exists;
else `root` itself.  Kept for the refinement comparison against
`unwrapRoot`, the rule the code actually implements. -/
def unwrapClaimRule (root : JVal) : JVal :=
  if jget root "spec" = JVal.str "chara_card_v2" ∧ hasKeyJ root "data" then
    jget root "data"
  else if ¬ hasKeyJ root "name" ∧ hasKeyJ (jget root "data") "name" then
    jget root "data"
  else root

/-- **C5, counterexample**: for the root `{name: "", data: {name: "X"}}`
the claim's rule keeps the root itself (a `name` field *is present*),
but the code unwraps to `root.data`, because JavaScript `!rawRoot.name`
is true for the empty string.  So the claim's presence-based reading is
false on the code. -/
theorem C5_unwrap_rule_counterexample :
    unwrapRoot (JVal.obj [("name", JVal.str ""), ("data", JVal.obj [("name", JVal.str "X")])])
      = JVal.obj [("name", JVal.str "X")] ∧
    unwrapClaimRule (JVal.obj [("name", JVal.str ""), ("data", JVal.obj [("name", JVal.str "X")])])
      = JVal.obj [("name", JVal.str ""), ("data", JVal.obj [("name", JVal.str "X")])] ∧
    JVal.obj [("name", JVal.str "X")]
      ≠ JVal.obj [("name", JVal.str ""), ("data", JVal.obj [("name", JVal.str "X")])] := by
  decide

/-- **C5, amended**: the field-bearing body is `root.data` when
`root.spec` equals `"chara_card_v2"` and `root.data` is *truthy*;
otherwise `root.data` when `root.name` is *falsy* (absent, or one of
`undefined`/`null`/`false`/`0`/`""`) and `root.data.name` is truthy;
otherwise the root itself.  The last conjunct spells out exactly which
`name` values count as falsy. -/
theorem C5_unwrap_rule_amended (o : List (String × JVal)) :
    (jget (JVal.obj o) "spec" = JVal.str "chara_card_v2" →
      truthy (jget (JVal.obj o) "data") = true →
      unwrapRoot (JVal.obj o) = jget (JVal.obj o) "data") ∧
    (¬ (jget (JVal.obj o) "spec" = JVal.str "chara_card_v2" ∧
        truthy (jget (JVal.obj o) "data") = true) →
      truthy (jget (JVal.obj o) "name") = false →
      truthy (jget (jget (JVal.obj o) "data") "name") = true →
      unwrapRoot (JVal.obj o) = jget (JVal.obj o) "data") ∧
    (¬ (jget (JVal.obj o) "spec" = JVal.str "chara_card_v2" ∧
        truthy (jget (JVal.obj o) "data") = true) →
      (truthy (jget (JVal.obj o) "name") = true ∨
        truthy (jget (jget (JVal.obj o) "data") "name") = false) →
      unwrapRoot (JVal.obj o) = JVal.obj o) ∧
    (truthy (jget (JVal.obj o) "name") = false ↔
      (hasKey o "name" = false ∨ olookup o "name" ∈
        [JVal.undef, JVal.null, JVal.bool false, JVal.num 0, JVal.str ""])) := by
  refine ⟨?_, ?_, ?_, ?_⟩
  · intro h1 h2
    rw [unwrapRoot, if_pos ⟨h1, h2⟩]
  · intro h1 h2 h3
    rw [unwrapRoot, if_neg (by simpa using h1), if_pos ⟨by simp [h2], h3⟩]
  · intro h1 h2
    rw [unwrapRoot, if_neg (by simpa using h1), if_neg ?_]
    rcases h2 with h2 | h2
    · simp [h2]
    · simp [h2]
  · have hj : jget (JVal.obj o) "name" = olookup o "name" := rfl
    rw [hj]
    by_cases hk : hasKey o "name" = true
    · cases hv : olookup o "name" with
      | undef => simp [truthy, hv]
      | null => simp [truthy, hv]
      | bool b => cases b <;> simp [truthy, hv, hk]
      | num n =>
        by_cases hn : n = 0 <;> simp [truthy, hv, hn, hk]
      | str s =>
        by_cases hs : s = "" <;> simp [truthy, hv, hs, hk]
      | arr l => simp [truthy, hv, hk]
      | obj f => simp [truthy, hv, hk]
    · have hv : olookup o "name" = .undef :=
        olookup_eq_undef_of_not_mem o "name"
          ((hasKey_false_iff o "name").mp (by simpa using hk))
      simp [truthy, hv]

/-- Witness for C5 at concrete roots: one case per branch of the
amended rule. -/
theorem C5_unwrap_rule_witness :
    unwrapRoot (JVal.obj [("spec", JVal.str "chara_card_v2"), ("data", JVal.obj [("a", JVal.num 1)])])
      = jget (JVal.obj [("spec", JVal.str "chara_card_v2"), ("data", JVal.obj [("a", JVal.num 1)])]) "data" ∧
    unwrapRoot (JVal.obj [("data", JVal.obj [("name", JVal.str "K")])])
      = jget (JVal.obj [("data", JVal.obj [("name", JVal.str "K")])]) "data" ∧
    unwrapRoot (JVal.obj [("name", JVal.str "N")])
      = JVal.obj [("name", JVal.str "N")] :=
  ⟨(C5_unwrap_rule_amended [("spec", JVal.str "chara_card_v2"), ("data", JVal.obj [("a", JVal.num 1)])]).1
      (by decide) (by decide),
   (C5_unwrap_rule_amended [("data", JVal.obj [("name", JVal.str "K")])]).2.1
      (by decide) (by decide) (by decide),
   (C5_unwrap_rule_amended [("name", JVal.str "N")]).2.2.1
      (by decide) (by decide)⟩

/-! ## C9: quick-reply export objects -/

theorem hasKey_oset_self (o : List (String × JVal)) (k : String) (v : JVal) :
    hasKey (oset o k v) k = true := by
  apply (hasKey_iff_mem _ k).mpr
  rw [okeys_oset]
  by_cases h : hasKey o k = true
  · simpa [h] using (hasKey_iff_mem o k).mp h
  · simp [h]

/-- Character used by the C9 counterexample: a current action list and
a retained raw quick-reply object that itself carries a `qrList` key. -/
def qrChar9 : Character :=
  { witChar with
    qrList := JVal.arr [JVal.str "a"]
    extra_qr_data := JVal.obj [("qrList", JVal.arr [JVal.str "b"])] }

/-- **C9, counterexample**: in the quick-reply file produced inside
ZIP/package exports the retained raw object is spread *after* the
`qrList` member, so its `qrList` overrides the current action list
(the claim says the recognized array key always holds the current
list), and the ZIP object carries none of the scaffold's feature
flags. -/
theorem C9_qr_export_shape_counterexample :
    qrChar9.qrList = JVal.arr [JVal.str "a"] ∧
    olookup (zipQrData qrChar9) "qrList" = JVal.arr [JVal.str "b"] ∧
    JVal.arr [JVal.str "b"] ≠ JVal.arr [JVal.str "a"] ∧
    hasKey (zipQrData qrChar9) "disableSend" = false := by
  decide

/-- **C9, amended**: the standalone `exportQrData` object is the fixed
scaffold overlaid with the retained raw object and `qrList` always
holds the current action list; the quick-reply file inside ZIP/package
exports instead uses the minimal `{version, name, qrList}` scaffold
with the raw object taking precedence, including over `qrList`. -/
theorem C9_qr_export_shape_amended :
    (∀ (qrList extraData : JVal),
      olookup (exportQrData qrList extraData) "qrList" = qrList) ∧
    (∀ (qrList : JVal) (e : List (String × JVal)) (k : String), k ≠ "qrList" →
      olookup (exportQrData qrList (JVal.obj e)) k =
        if hasKey (ospread [] e) k then olookup (ospread [] e) k
        else olookup qrScaffold k) ∧
    (∀ (c : Character) (e : List (String × JVal)),
      c.extra_qr_data = JVal.obj e →
      olookup (zipQrData c) "qrList" =
        if hasKey (ospread [] e) "qrList" then olookup (ospread [] e) "qrList"
        else c.qrList) := by
  refine ⟨?_, ?_, ?_⟩
  · intro qrList extraData
    exact olookup_oset_self _ "qrList" qrList
  · intro qrList e k hk
    have hnd : (okeys (ospread [] e)).Nodup :=
      okeys_ospread_nodup [] e (by simp [okeys])
    rw [exportQrData, olookup_oset_other _ "qrList" qrList k hk]
    have hsf : jSpreadFields (JVal.obj e) = ospread [] e := rfl
    rw [hsf, olookup_ospread qrScaffold (ospread [] e) k hnd]
  · intro c e he
    have hnd : (okeys (ospread [] e)).Nodup :=
      okeys_ospread_nodup [] e (by simp [okeys])
    have hjor : jor c.extra_qr_data (JVal.obj []) = JVal.obj e := by
      rw [he]; rfl
    rw [zipQrData, hjor]
    have hsf : jSpreadFields (JVal.obj e) = ospread [] e := rfl
    rw [hsf, olookup_ospread _ (ospread [] e) "qrList" hnd]
    by_cases hq : hasKey (ospread [] e) "qrList" = true
    · simp [hq]
    · simp [hq, olookup]

/-- Witness for C9 at concrete inputs: standalone export keeps the
current list even when the raw object carries `qrList`; the ZIP export
object yields the raw object's `qrList`. -/
theorem C9_qr_export_shape_witness :
    olookup (exportQrData (JVal.arr [JVal.num 1])
      (JVal.obj [("qrList", JVal.arr []), ("color", JVal.str "red")])) "qrList"
      = JVal.arr [JVal.num 1] ∧
    olookup (exportQrData (JVal.arr [JVal.num 1])
      (JVal.obj [("qrList", JVal.arr []), ("color", JVal.str "red")])) "color"
      = (if hasKey (ospread [] [("qrList", JVal.arr []), ("color", JVal.str "red")]) "color"
          then olookup (ospread [] [("qrList", JVal.arr []), ("color", JVal.str "red")]) "color"
          else olookup qrScaffold "color") ∧
    olookup (zipQrData qrChar9) "qrList" =
      (if hasKey (ospread [] [("qrList", JVal.arr [JVal.str "b"])]) "qrList"
        then olookup (ospread [] [("qrList", JVal.arr [JVal.str "b"])]) "qrList"
        else qrChar9.qrList) :=
  ⟨C9_qr_export_shape_amended.1 (JVal.arr [JVal.num 1])
      (JVal.obj [("qrList", JVal.arr []), ("color", JVal.str "red")]),
   C9_qr_export_shape_amended.2.1 (JVal.arr [JVal.num 1])
      [("qrList", JVal.arr []), ("color", JVal.str "red")] "color" (by decide),
   C9_qr_export_shape_amended.2.2 qrChar9 [("qrList", JVal.arr [JVal.str "b"])]
      (by decide)⟩

/-! ## C10: purity of the rawData snapshot -/

theorem exceptMapM_ok {α β : Type} (f : α → Except String β) :
    ∀ (l : List α) (r : List β), l.mapM f = .ok r →
      r.length = l.length ∧ ∀ y ∈ r, ∃ x ∈ l, f x = .ok y := by
  intro l
  induction l with
  | nil =>
    intro r h
    simp only [List.mapM_nil, pure, Except.pure, Except.ok.injEq] at h
    subst h
    simp
  | cons x xs ih =>
    intro r h
    rw [List.mapM_cons] at h
    cases hfx : f x with
    | error e =>
      rw [hfx] at h
      simp [bind, Except.bind] at h
    | ok y =>
      rw [hfx] at h
      cases hxs : xs.mapM f with
      | error e =>
        rw [hxs] at h
        simp [bind, Except.bind] at h
      | ok ys =>
        rw [hxs] at h
        simp only [bind, Except.bind, pure, Except.pure, Except.ok.injEq] at h
        subst h
        obtain ⟨hlen, hmem⟩ := ih ys hxs
        refine ⟨by simp [hlen], ?_⟩
        intro z hz
        rcases List.mem_cons.mp hz with hz | hz
        · exact ⟨x, by simp, hz ▸ hfx⟩
        · obtain ⟨w, hw, hfw⟩ := hmem z hz
          exact ⟨w, by simp [hw], hfw⟩

theorem addKeysInput_ok_hasKey (e e' : JVal) (h : addKeysInput e = .ok e') :
    hasKeyJ e' "keysInput" = true := by
  cases e with
  | null => simp [addKeysInput] at h
  | undef => simp [addKeysInput] at h
  | bool b =>
    simp only [addKeysInput, Except.ok.injEq] at h
    rw [← h]
    exact hasKey_oset_self _ _ _
  | num n =>
    simp only [addKeysInput, Except.ok.injEq] at h
    rw [← h]
    exact hasKey_oset_self _ _ _
  | str s =>
    simp only [addKeysInput, Except.ok.injEq] at h
    rw [← h]
    exact hasKey_oset_self _ _ _
  | arr l =>
    simp only [addKeysInput, Except.ok.injEq] at h
    rw [← h]
    exact hasKey_oset_self _ _ _
  | obj o =>
    simp only [addKeysInput, Except.ok.injEq] at h
    rw [← h]
    exact hasKey_oset_self _ _ _

/-- **C10** (implicit rawData-snapshot purity): a successful import
retains the unwrapped source object itself as `rawData`; when the
source carries a lorebook with an entries array, `rawData`'s
`character_book.entries` is still that exact source array (the UI-only
`keysInput` helper is never inserted into it), while the typed
`character_book` field holds a fresh copy whose entries all carry the
`keysInput` helper. -/
theorem C10_rawdata_snapshot_purity
    (rawRoot : JVal) (f a i fmt : String) (t : Nat) (c : Character)
    (hB : buildCharacter rawRoot f a i fmt t = .ok c) :
    c.rawData = unwrapRoot rawRoot ∧
    jget c.rawData "character_book" = jget (unwrapRoot rawRoot) "character_book" ∧
    (∀ (cbo : List (String × JVal)) (l : List JVal),
      jget (unwrapRoot rawRoot) "character_book" = JVal.obj cbo →
      olookup cbo "entries" = JVal.arr l →
      jget (jget c.rawData "character_book") "entries" = JVal.arr l ∧
      ∃ entries', jget c.character_book "entries" = JVal.arr entries' ∧
        entries'.length = l.length ∧
        (∀ e' ∈ entries', hasKeyJ e' "keysInput" = true)) := by
  rw [buildCharacter] at hB
  cases hX : importedCharacterBook (jget (unwrapRoot rawRoot) "character_book") with
  | error e =>
    rw [hX] at hB
    simp [bind, Except.bind] at hB
  | ok cbv =>
    rw [hX] at hB
    simp only [bind, Except.bind, pure, Except.pure, Except.ok.injEq] at hB
    subst hB
    refine ⟨rfl, rfl, ?_⟩
    intro cbo l hcb hent
    have hjent : jget (JVal.obj cbo) "entries" = JVal.arr l := by
      simpa [jget] using hent
    constructor
    · rw [show (importedRecord (unwrapRoot rawRoot) f a i fmt t cbv).rawData
        = unwrapRoot rawRoot from rfl, hcb, hjent]
    · rw [hcb] at hX
      rw [importedCharacterBook, hjent] at hX
      simp only [truthy, if_true] at hX
      cases hmm : l.mapM addKeysInput with
      | error e => rw [hmm] at hX; simp [bind, Except.bind] at hX
      | ok es =>
        rw [hmm] at hX
        simp only [bind, Except.bind, pure, Except.pure, Except.ok.injEq] at hX
        obtain ⟨hlen, hmem⟩ := exceptMapM_ok addKeysInput l es hmm
        refine ⟨es, ?_, hlen, ?_⟩
        · rw [show (importedRecord (unwrapRoot rawRoot) f a i fmt t cbv).character_book
            = cbv from rfl, ← hX]
          simp only [jget]
          exact olookup_oset_self _ "entries" _
        · intro e' he'
          obtain ⟨x, _, hx⟩ := hmem e' he'
          exact addKeysInput_ok_hasKey x e' hx


/-- Source lorebook entry for the C10 witness. -/
def c10EntryV : JVal :=
  JVal.obj [("keys", JVal.arr [JVal.str "k1", JVal.str "k2"]),
    ("content", JVal.str "c")]

/-- v2-enveloped import root for the C10 witness. -/
def c10Root : JVal :=
  JVal.obj [("spec", JVal.str "chara_card_v2"),
    ("data", JVal.obj [("name", JVal.str "A"),
      ("character_book", JVal.obj [("entries", JVal.arr [c10EntryV])])])]

/-- The record `buildCharacter` produces from `c10Root`. -/
def c10Char : Character :=
  { id := "id1", name := JVal.str "A", description := JVal.str "",
    personality := JVal.str "", firstMessage := JVal.str "",
    alternate_greetings := JVal.arr [], scenario := JVal.str "",
    character_book := JVal.obj [("entries",
      JVal.arr [JVal.obj [("keys", JVal.arr [JVal.str "k1", JVal.str "k2"]),
        ("content", JVal.str "c"), ("keysInput", JVal.str "k1, k2")]])],
    tags := JVal.arr [], avatarUrl := "av", qrList := JVal.arr [],
    originalFilename := "f.png", sourceUrl := JVal.str "",
    creator_notes := JVal.str "", mes_example := JVal.str "",
    system_prompt := JVal.str "", post_history_instructions := JVal.str "",
    creator := JVal.str "", character_version := JVal.str "",
    extensions := JVal.obj [],
    rawData := JVal.obj [("name", JVal.str "A"),
      ("character_book", JVal.obj [("entries", JVal.arr [c10EntryV])])],
    importDate := 0, extra_qr_data := JVal.undef, qrFileName := JVal.undef,
    importFormat := "png" }

/-- Witness for C10 on a concrete import: the retained `rawData` is the
unwrapped body, its lorebook entry is byte-identical to the source's
(no `keysInput`), and the typed book's copied entry carries the
comma-joined helper. -/
theorem C10_rawdata_snapshot_purity_witness :
    c10Char.rawData = unwrapRoot c10Root ∧
    jget (jget c10Char.rawData "character_book") "entries" = JVal.arr [c10EntryV] ∧
    jget c10Char.character_book "entries" =
      JVal.arr [JVal.obj [("keys", JVal.arr [JVal.str "k1", JVal.str "k2"]),
        ("content", JVal.str "c"), ("keysInput", JVal.str "k1, k2")]] ∧
    hasKeyJ c10EntryV "keysInput" = false := by
  have H := C10_rawdata_snapshot_purity c10Root "f.png" "av" "id1" "png" 0 c10Char
    (by decide)
  exact ⟨H.1, (H.2.2 [("entries", JVal.arr [c10EntryV])] [c10EntryV]
    (by decide) (by decide)).1, by decide, by decide⟩

example : jJoinElems ", " [JVal.str "k1", JVal.str "k2"] = "k1, k2" := by decide
example : jStringCoerce (JVal.arr [JVal.num 1, JVal.null, JVal.str "x"]) = "1,,x" := by decide

/-! ## C4: CRC32 correctness -/

theorem xor_div_two (a b : Nat) : (a ^^^ b) / 2 = a / 2 ^^^ b / 2 := by
  have h : ∀ x : Nat, x / 2 = x >>> 1 := fun x => (Nat.shiftRight_eq_div_pow x 1).symm.trans (by norm_num)
  rw [h, h, h]
  apply Nat.eq_of_testBit_eq
  intro i
  simp [Nat.testBit_shiftRight, Nat.testBit_xor]

theorem xor_div_pow (a b k : Nat) : (a ^^^ b) / 2 ^ k = a / 2 ^ k ^^^ b / 2 ^ k := by
  have h : ∀ x : Nat, x / 2 ^ k = x >>> k := fun x => (Nat.shiftRight_eq_div_pow x k).symm
  rw [h, h, h]
  apply Nat.eq_of_testBit_eq
  intro i
  simp [Nat.testBit_shiftRight, Nat.testBit_xor]

theorem xor_mod_two (a b : Nat) : (a ^^^ b) % 2 = a % 2 ^^^ b % 2 := by
  rw [← Nat.and_one_is_mod, ← Nat.and_one_is_mod, ← Nat.and_one_is_mod,
    Nat.and_xor_distrib_right]

theorem crcBitStep_eq (c : Nat) :
    crcBitStep c = c / 2 ^^^ (if c % 2 = 1 then 0xedb88320 else 0) := by
  unfold crcBitStep
  by_cases h : c % 2 = 1 <;> simp [h, Nat.xor_comm]

theorem natXor_left_comm (x y z : Nat) : x ^^^ (y ^^^ z) = y ^^^ (x ^^^ z) := by
  rw [← Nat.xor_assoc, Nat.xor_comm x y, Nat.xor_assoc]

theorem crcBitStep_xor (a b : Nat) :
    crcBitStep (a ^^^ b) = crcBitStep a ^^^ crcBitStep b := by
  rw [crcBitStep_eq, crcBitStep_eq, crcBitStep_eq, xor_div_two, xor_mod_two]
  rcases Nat.mod_two_eq_zero_or_one a with ha | ha <;>
    rcases Nat.mod_two_eq_zero_or_one b with hb | hb <;>
      simp [ha, hb, Nat.xor_assoc, Nat.xor_comm, natXor_left_comm, Nat.xor_self]

theorem crcBit8_xor (a b : Nat) (k : Nat) :
    crcBitStep^[k] (a ^^^ b) = crcBitStep^[k] a ^^^ crcBitStep^[k] b := by
  induction k generalizing a b with
  | zero => simp
  | succ k ih =>
    rw [Function.iterate_succ_apply, Function.iterate_succ_apply,
      Function.iterate_succ_apply, crcBitStep_xor, ih]

theorem crcBitStep_double (m : Nat) : crcBitStep (2 * m) = m := by
  unfold crcBitStep
  simp [Nat.mul_mod_right, Nat.mul_div_cancel_left]

theorem crcBit8_mul_pow (k m : Nat) : crcBitStep^[k] (m * 2 ^ k) = m := by
  induction k generalizing m with
  | zero => simp
  | succ k ih =>
    rw [Function.iterate_succ_apply]
    have he : m * 2 ^ (k + 1) = 2 * (m * 2 ^ k) := by ring
    rw [he, crcBitStep_double, ih]

theorem split_byte (x : Nat) : x % 256 ^^^ x / 256 * 256 = x := by
  have h1 : x / 256 * 256 = (x >>> 8) <<< 8 := by
    rw [Nat.shiftLeft_eq, Nat.shiftRight_eq_div_pow]
  rw [h1]
  apply Nat.eq_of_testBit_eq
  intro i
  rw [Nat.testBit_xor]
  by_cases hi : i < 8
  · have h2 : (256 : Nat) = 2 ^ 8 := by norm_num
    rw [h2, Nat.testBit_mod_two_pow, Nat.testBit_shiftLeft]
    simp [hi, Nat.not_le.mpr hi]
  · have h2 : (256 : Nat) = 2 ^ 8 := by norm_num
    rw [h2, Nat.testBit_mod_two_pow, Nat.testBit_shiftLeft, Nat.testBit_shiftRight]
    have h3 : 8 ≤ i := Nat.le_of_not_lt hi
    simp [hi, h3, Nat.add_sub_cancel' h3]

theorem crcBit8_split (x : Nat) :
    crcBitStep^[8] x = crcTable (x % 256) ^^^ x / 256 := by
  conv_lhs => rw [← split_byte x]
  rw [crcBit8_xor]
  have h256 : (256 : Nat) = 2 ^ 8 := by norm_num
  rw [show crcBitStep^[8] (x / 256 * 256) = x / 256 from by
    rw [h256]; exact crcBit8_mul_pow 8 (x / 256)]
  rfl

/-- Modelled from the spec's words: the PNG reference CRC — process
each byte by XOR into the low bits and eight reflected-polynomial
(0xEDB88320) bit steps, initial value 0xFFFFFFFF, final XOR
0xFFFFFFFF. -/
def crcSpec (buf : List Nat) : Nat :=
  buf.foldl (fun crc b => crcBitStep^[8] (crc ^^^ b)) 0xffffffff ^^^ 0xffffffff

theorem and_255_eq_mod (x : Nat) : x &&& 255 = x % 256 :=
  Nat.and_pow_two_sub_one_eq_mod x 8

theorem xor_div_256_of_lt (s b : Nat) (hb : b < 256) : (s ^^^ b) / 256 = s / 256 := by
  have h : ∀ x : Nat, x / 256 = x >>> 8 := fun x => by
    rw [Nat.shiftRight_eq_div_pow]
  rw [h, h]
  apply Nat.eq_of_testBit_eq
  intro i
  rw [Nat.testBit_shiftRight, Nat.testBit_shiftRight, Nat.testBit_xor]
  have hbf : b.testBit (8 + i) = false := by
    apply Nat.testBit_eq_false_of_lt
    calc b < 256 := hb
    _ = 2 ^ 8 := by norm_num
    _ ≤ 2 ^ (8 + i) := Nat.pow_le_pow_right (by norm_num) (by omega)
  simp [hbf]

theorem crc32Step_eq_spec (s b : Nat) (hb : b < 256) :
    crc32Step s b = crcBitStep^[8] (s ^^^ b) := by
  rw [crcBit8_split, crc32Step, and_255_eq_mod, xor_div_256_of_lt s b hb]
  norm_num

theorem crc32_eq_crcSpec (buf : List Nat) (h : ∀ b ∈ buf, b < 256) :
    crc32 buf = crcSpec buf := by
  rw [crc32, crcSpec]
  congr 1
  have haux : ∀ (l : List Nat), (∀ b ∈ l, b < 256) → ∀ s : Nat,
      l.foldl crc32Step s = l.foldl (fun crc b => crcBitStep^[8] (crc ^^^ b)) s := by
    intro l hl
    induction l with
    | nil => intro s; rfl
    | cons x xs ih =>
      intro s
      rw [List.foldl_cons, List.foldl_cons, crc32Step_eq_spec s x (hl x (by simp))]
      exact ih (fun b hb => hl b (by simp [hb])) _
  exact haux buf h _

theorem crcBitStep_lt (c : Nat) (h : c < 2 ^ 32) : crcBitStep c < 2 ^ 32 := by
  unfold crcBitStep
  by_cases hp : c % 2 = 1
  · simp only [hp, if_true]
    exact Nat.xor_lt_two_pow (by norm_num) (by omega)
  · simp only [hp, if_false]
    omega

theorem crcTable_lt (n : Nat) (h : n < 2 ^ 32) : crcTable n < 2 ^ 32 := by
  unfold crcTable
  have : ∀ k m, m < 2 ^ 32 → crcBitStep^[k] m < 2 ^ 32 := by
    intro k
    induction k with
    | zero => intro m hm; simpa using hm
    | succ k ih =>
      intro m hm
      rw [Function.iterate_succ_apply]
      exact ih _ (crcBitStep_lt m hm)
  exact this 8 n h

theorem crc32Step_lt (s b : Nat) (hs : s < 2 ^ 32) : crc32Step s b < 2 ^ 32 := by
  unfold crc32Step
  refine Nat.xor_lt_two_pow (crcTable_lt _ ?_) (by omega)
  have : (s ^^^ b) &&& 255 < 256 := by
    rw [and_255_eq_mod]
    exact Nat.mod_lt _ (by norm_num)
  omega

theorem crcFold_lt (l : List Nat) (s : Nat) (hs : s < 2 ^ 32) :
    l.foldl crc32Step s < 2 ^ 32 := by
  induction l generalizing s with
  | nil => simpa using hs
  | cons x xs ih => exact ih _ (crc32Step_lt s x hs)

theorem crc32_lt (buf : List Nat) : crc32 buf < 2 ^ 32 := by
  rw [crc32]
  exact Nat.xor_lt_two_pow (crcFold_lt buf _ (by norm_num)) (by norm_num)

set_option maxRecDepth 40000 in
theorem crcTable_map_nodup : ((List.range 256).map crcTable).Nodup := by decide

set_option maxRecDepth 40000 in
theorem crcTable_top_map_nodup :
    ((List.range 256).map (fun n => crcTable n / 2 ^ 24)).Nodup := by decide

theorem crcTable_inj (a b : Nat) (ha : a < 256) (hb : b < 256)
    (h : crcTable a = crcTable b) : a = b :=
  List.inj_on_of_nodup_map crcTable_map_nodup (List.mem_range.mpr ha)
    (List.mem_range.mpr hb) h

theorem crcTable_top_inj (a b : Nat) (ha : a < 256) (hb : b < 256)
    (h : crcTable a / 2 ^ 24 = crcTable b / 2 ^ 24) : a = b :=
  List.inj_on_of_nodup_map crcTable_top_map_nodup (List.mem_range.mpr ha)
    (List.mem_range.mpr hb) h

theorem crcIndex_eq (s b : Nat) (hb : b < 256) :
    (s ^^^ b) &&& 255 = s &&& 255 ^^^ b := by
  rw [Nat.and_xor_distrib_right]
  congr 1
  rw [and_255_eq_mod, Nat.mod_eq_of_lt hb]

theorem crcIndex_lt (s b : Nat) : (s ^^^ b) &&& 255 < 256 := by
  rw [and_255_eq_mod]
  exact Nat.mod_lt _ (by norm_num)

theorem crc32Step_byte_inj (s b1 b2 : Nat) (h1 : b1 < 256) (h2 : b2 < 256)
    (hne : b1 ≠ b2) : crc32Step s b1 ≠ crc32Step s b2 := by
  intro he
  unfold crc32Step at he
  have hT : crcTable ((s ^^^ b1) &&& 255) = crcTable ((s ^^^ b2) &&& 255) := by
    have e1 := Nat.xor_cancel_right (s / 2 ^ 8) (crcTable ((s ^^^ b1) &&& 255))
    have e2 := Nat.xor_cancel_right (s / 2 ^ 8) (crcTable ((s ^^^ b2) &&& 255))
    rw [← e1, ← e2, he]
  have hidx := crcTable_inj _ _ (crcIndex_lt s b1) (crcIndex_lt s b2) hT
  rw [crcIndex_eq s b1 h1, crcIndex_eq s b2 h2] at hidx
  have := Nat.xor_cancel_left (s &&& 255) b1
  rw [hidx, Nat.xor_cancel_left] at this
  exact hne this.symm

theorem crc32Step_state_inj (s1 s2 b : Nat) (hs1 : s1 < 2 ^ 32) (hs2 : s2 < 2 ^ 32)
    (hb : b < 256) (hne : s1 ≠ s2) : crc32Step s1 b ≠ crc32Step s2 b := by
  intro he
  unfold crc32Step at he
  have hdivlt : ∀ s : Nat, s < 2 ^ 32 → s / 2 ^ 8 / 2 ^ 24 = 0 := by
    intro s hs
    apply Nat.div_eq_of_lt
    apply Nat.div_lt_of_lt_mul
    calc s < 2 ^ 32 := hs
    _ = 2 ^ 8 * 2 ^ 24 := by norm_num
  have htop : crcTable ((s1 ^^^ b) &&& 255) / 2 ^ 24
      = crcTable ((s2 ^^^ b) &&& 255) / 2 ^ 24 := by
    have h24 := congrArg (fun x => x / 2 ^ 24) he
    simp only [xor_div_pow] at h24
    rwa [hdivlt s1 hs1, hdivlt s2 hs2, Nat.xor_zero, Nat.xor_zero] at h24
  have hidx := crcTable_top_inj _ _ (crcIndex_lt s1 b) (crcIndex_lt s2 b) htop
  have hT : crcTable ((s1 ^^^ b) &&& 255) = crcTable ((s2 ^^^ b) &&& 255) := by
    rw [hidx]
  have hhi : s1 / 2 ^ 8 = s2 / 2 ^ 8 := by
    have e1 := Nat.xor_cancel_left (crcTable ((s1 ^^^ b) &&& 255)) (s1 / 2 ^ 8)
    rw [← e1, he, hT, Nat.xor_cancel_left]
  have hlo : s1 &&& 255 = s2 &&& 255 := by
    rw [crcIndex_eq s1 b hb, crcIndex_eq s2 b hb] at hidx
    have e1 := Nat.xor_cancel_right b (s1 &&& 255)
    rw [← e1, hidx, Nat.xor_cancel_right]
  apply hne
  rw [and_255_eq_mod, and_255_eq_mod] at hlo
  have d1 := Nat.div_add_mod s1 256
  have d2 := Nat.div_add_mod s2 256
  have hhi' : s1 / 256 = s2 / 256 := by
    have hp : (2 : Nat) ^ 8 = 256 := by norm_num
    rwa [hp] at hhi
  omega

theorem crcFold_state_inj (l : List Nat) (hl : ∀ x ∈ l, x < 256) :
    ∀ s1 s2 : Nat, s1 < 2 ^ 32 → s2 < 2 ^ 32 → s1 ≠ s2 →
      l.foldl crc32Step s1 ≠ l.foldl crc32Step s2 := by
  induction l with
  | nil => intro s1 s2 _ _ hne; simpa using hne
  | cons x xs ih =>
    intro s1 s2 hs1 hs2 hne
    rw [List.foldl_cons, List.foldl_cons]
    exact ih (fun y hy => hl y (by simp [hy])) _ _
      (crc32Step_lt s1 x hs1) (crc32Step_lt s2 x hs2)
      (crc32Step_state_inj s1 s2 x hs1 hs2 (hl x (by simp)) hne)

theorem crc32_single_byte_sensitive (pre suf : List Nat) (b1 b2 : Nat)
    (hsuf : ∀ x ∈ suf, x < 256) (h1 : b1 < 256) (h2 : b2 < 256) (hne : b1 ≠ b2) :
    crc32 (pre ++ b1 :: suf) ≠ crc32 (pre ++ b2 :: suf) := by
  intro he
  rw [crc32, crc32] at he
  have hf : (pre ++ b1 :: suf).foldl crc32Step 0xffffffff
      = (pre ++ b2 :: suf).foldl crc32Step 0xffffffff := by
    have e1 := Nat.xor_cancel_right 0xffffffff
      ((pre ++ b1 :: suf).foldl crc32Step 0xffffffff)
    rw [← e1, he, Nat.xor_cancel_right]
  rw [List.foldl_append, List.foldl_append, List.foldl_cons, List.foldl_cons] at hf
  have hs : pre.foldl crc32Step 0xffffffff < 2 ^ 32 :=
    crcFold_lt pre _ (by norm_num)
  exact crcFold_state_inj suf hsuf _ _
    (crc32Step_lt _ b1 hs) (crc32Step_lt _ b2 hs)
    (crc32Step_byte_inj _ b1 b2 h1 h2 hne) hf

/-! ## The chunk buffer in closed form -/

theorem writeAt_append_zeros (P X : List Nat) (m pos : Nat)
    (hpos : pos = P.length) (hm : X.length ≤ m) :
    writeAt (P ++ List.replicate m 0) pos X
      = P ++ X ++ List.replicate (m - X.length) 0 := by
  subst hpos
  unfold writeAt
  have hlen : (P ++ List.replicate m 0).length = P.length + m := by simp
  rw [List.take_left, hlen, Nat.add_sub_cancel_left,
    List.take_of_length_le hm, List.drop_append, List.drop_replicate,
    List.append_assoc]

theorem u32beBytes_length (n : Nat) : (u32beBytes n).length = 4 := rfl

theorem tavernBuf5_eq (e : STExport) :
    tavernBuf5 e = u32beBytes (tavernChunkLength e) ++ [116, 69, 88, 116] ++
      utf8Encode "chara" ++ [0] ++ tavernText e ++ List.replicate 4 0 := by
  have h5 : (utf8Encode "chara").length = 5 := rfl
  have hCL : tavernChunkLength e = 6 + (tavernText e).length := by
    rw [tavernChunkLength, h5]
  have hb1 : tavernBuf1 e
      = u32beBytes (tavernChunkLength e) ++ List.replicate (8 + tavernChunkLength e) 0 := by
    rw [tavernBuf1, tavernBuf0,
      show List.replicate (4 + 4 + tavernChunkLength e + 4) (0 : Nat)
        = ([] : List Nat) ++ List.replicate (4 + 4 + tavernChunkLength e + 4) 0 from rfl,
      writeAt_append_zeros [] (u32beBytes (tavernChunkLength e))
        (4 + 4 + tavernChunkLength e + 4) 0 rfl (by rw [u32beBytes_length]; omega)]
    rw [u32beBytes_length]
    have he4 : 4 + 4 + tavernChunkLength e + 4 - 4 = 8 + tavernChunkLength e := by omega
    rw [he4]
    rfl
  have hb2 : tavernBuf2 e
      = (u32beBytes (tavernChunkLength e) ++ [116, 69, 88, 116]) ++
        List.replicate (4 + tavernChunkLength e) 0 := by
    rw [tavernBuf2, hb1,
      writeAt_append_zeros (u32beBytes (tavernChunkLength e)) [116, 69, 88, 116]
        (8 + tavernChunkLength e) 4 (by rw [u32beBytes_length]) (by simp; omega)]
    have hx : 8 + tavernChunkLength e - List.length [116, 69, 88, 116]
        = 4 + tavernChunkLength e := by
      simp only [List.length_cons, List.length_nil]
      omega
    rw [hx]
  have hb3 : tavernBuf3 e
      = ((u32beBytes (tavernChunkLength e) ++ [116, 69, 88, 116]) ++ utf8Encode "chara") ++
        List.replicate (tavernChunkLength e - 1) 0 := by
    rw [tavernBuf3, hb2,
      writeAt_append_zeros (u32beBytes (tavernChunkLength e) ++ [116, 69, 88, 116])
        (utf8Encode "chara") (4 + tavernChunkLength e) 8
        (by simp [u32beBytes_length]) (by rw [h5]; omega)]
    have hx : 4 + tavernChunkLength e - (utf8Encode "chara").length
        = tavernChunkLength e - 1 := by
      rw [h5, hCL]
      omega
    rw [hx]
  have hb4 : tavernBuf4 e
      = (((u32beBytes (tavernChunkLength e) ++ [116, 69, 88, 116]) ++ utf8Encode "chara") ++
          [0]) ++ List.replicate (tavernChunkLength e - 2) 0 := by
    rw [tavernBuf4, hb3,
      writeAt_append_zeros
        ((u32beBytes (tavernChunkLength e) ++ [116, 69, 88, 116]) ++ utf8Encode "chara")
        [0] (tavernChunkLength e - 1) (8 + (utf8Encode "chara").length)
        (by simp [u32beBytes_length, h5]) (by simp; omega)]
    have hx : tavernChunkLength e - 1 - List.length [0] = tavernChunkLength e - 2 := by
      simp only [List.length_cons, List.length_nil]
      omega
    rw [hx]
  have hb5 : tavernBuf5 e
      = ((((u32beBytes (tavernChunkLength e) ++ [116, 69, 88, 116]) ++ utf8Encode "chara") ++
          [0]) ++ tavernText e) ++ List.replicate 4 0 := by
    rw [tavernBuf5, hb4,
      writeAt_append_zeros
        (((u32beBytes (tavernChunkLength e) ++ [116, 69, 88, 116]) ++ utf8Encode "chara") ++ [0])
        (tavernText e) (tavernChunkLength e - 2) (8 + (utf8Encode "chara").length + 1)
        (by simp [u32beBytes_length, h5]) (by omega)]
    have hx : tavernChunkLength e - 2 - (tavernText e).length = 4 := by
      rw [hCL]
      omega
    rw [hx]
  rw [hb5]

theorem tavernCrcInput_eq (e : STExport) :
    tavernCrcInput e = tavernTypePayload e := by
  have h5 : (utf8Encode "chara").length = 5 := rfl
  have hCL : tavernChunkLength e = 6 + (tavernText e).length := by
    rw [tavernChunkLength, h5]
  rw [tavernCrcInput, tavernBuf5_eq]
  rw [show u32beBytes (tavernChunkLength e) ++ [116, 69, 88, 116] ++
      utf8Encode "chara" ++ [0] ++ tavernText e ++ List.replicate 4 0
    = u32beBytes (tavernChunkLength e) ++ ([116, 69, 88, 116] ++
      (utf8Encode "chara" ++ ([0] ++ (tavernText e ++ List.replicate 4 0))))
    from by simp [List.append_assoc]]
  rw [List.drop_left' (u32beBytes_length _)]
  rw [show [116, 69, 88, 116] ++ (utf8Encode "chara" ++ ([0] ++ (tavernText e ++ List.replicate 4 0)))
    = ([116, 69, 88, 116] ++ utf8Encode "chara" ++ [0] ++ tavernText e) ++ List.replicate 4 0
    from by simp [List.append_assoc]]
  rw [List.take_left' (by simp [h5]; omega)]
  rfl

theorem tavernChunk_eq (e : STExport) :
    tavernChunk e = u32beBytes (tavernChunkLength e) ++ tavernTypePayload e ++
      u32beBytes (crc32 (tavernTypePayload e)) := by
  have h5 : (utf8Encode "chara").length = 5 := rfl
  have hCL : tavernChunkLength e = 6 + (tavernText e).length := by
    rw [tavernChunkLength, h5]
  rw [tavernChunk, tavernCrcInput_eq, tavernBuf5_eq]
  rw [show u32beBytes (tavernChunkLength e) ++ [116, 69, 88, 116] ++
      utf8Encode "chara" ++ [0] ++ tavernText e ++ List.replicate 4 0
    = (u32beBytes (tavernChunkLength e) ++ ([116, 69, 88, 116] ++
      utf8Encode "chara" ++ [0] ++ tavernText e)) ++ List.replicate 4 0
    from by simp [List.append_assoc]]
  rw [writeAt_append_zeros
    (u32beBytes (tavernChunkLength e) ++ ([116, 69, 88, 116] ++
      utf8Encode "chara" ++ [0] ++ tavernText e))
    (u32beBytes (crc32 (tavernTypePayload e))) 4 (4 + 4 + tavernChunkLength e)
    (by simp [u32beBytes_length, h5]; omega) (by rw [u32beBytes_length])]
  rw [u32beBytes_length]
  simp [tavernTypePayload, List.append_assoc]

theorem tavernChunk_length (e : STExport) :
    (tavernChunk e).length = 12 + tavernChunkLength e := by
  have h5 : (utf8Encode "chara").length = 5 := rfl
  have hCL : tavernChunkLength e = 6 + (tavernText e).length := by
    rw [tavernChunkLength, h5]
  rw [tavernChunk_eq]
  simp [tavernTypePayload, u32beBytes_length, h5]
  omega

/-- **C4** (CRC correctness): the source's table-driven `crc32` equals
the PNG reference CRC (reflected polynomial 0xEDB88320, init
0xFFFFFFFF, final XOR 0xFFFFFFFF) and stays an unsigned 32-bit value;
the 4-byte trailer written for the injected chunk is exactly the CRC of
the chunk's type bytes concatenated with its payload bytes; and
changing any single byte of a buffer changes the `crc32` value. -/
theorem C4_crc32_correctness :
    (∀ buf : List Nat, (∀ b ∈ buf, b < 256) →
      crc32 buf = crcSpec buf ∧ crc32 buf < 2 ^ 32) ∧
    (∀ e : STExport, tavernChunk e = u32beBytes (tavernChunkLength e) ++
      tavernTypePayload e ++ u32beBytes (crc32 (tavernTypePayload e))) ∧
    (∀ (pre suf : List Nat) (b1 b2 : Nat), (∀ x ∈ suf, x < 256) →
      b1 < 256 → b2 < 256 → b1 ≠ b2 →
      crc32 (pre ++ b1 :: suf) ≠ crc32 (pre ++ b2 :: suf)) :=
  ⟨fun buf h => ⟨crc32_eq_crcSpec buf h, crc32_lt buf⟩,
   tavernChunk_eq,
   fun pre suf b1 b2 hs h1 h2 hne =>
     crc32_single_byte_sensitive pre suf b1 b2 hs h1 h2 hne⟩

/-- Envelope used by the C4 witness. -/
def crcEnv : STExport := ⟨"chara_card_v2", "2.0", [("name", JVal.str "A")]⟩

/-- Witness for C4 at concrete inputs: the `IEND` bytes, a concrete
chunk envelope, and a one-byte corruption. -/
theorem C4_crc32_correctness_witness :
    (crc32 [73, 69, 78, 68] = crcSpec [73, 69, 78, 68] ∧
      crc32 [73, 69, 78, 68] < 2 ^ 32) ∧
    tavernChunk crcEnv = u32beBytes (tavernChunkLength crcEnv) ++
      tavernTypePayload crcEnv ++ u32beBytes (crc32 (tavernTypePayload crcEnv)) ∧
    crc32 [1, 2, 3] ≠ crc32 [1, 7, 3] :=
  ⟨C4_crc32_correctness.1 [73, 69, 78, 68] (by decide),
   C4_crc32_correctness.2.1 crcEnv,
   C4_crc32_correctness.2.2 [1] [3] 2 7 (by decide) (by decide) (by decide) (by decide)⟩

/-! ## Scanner lemmas -/

/-- A raw chunk as laid out in a PNG byte stream. -/
structure RawChunk where
  ctype : List Nat
  payload : List Nat
  crc : List Nat
  deriving Repr, DecidableEq

/-- The byte encoding of one chunk:
length prefix, type, payload, CRC trailer. -/
def chunkBytes (c : RawChunk) : List Nat :=
  u32beBytes c.payload.length ++ c.ctype ++ c.payload ++ c.crc

/-- The byte encoding of a chunk sequence. -/
def chunksBytes (cs : List RawChunk) : List Nat := (cs.map chunkBytes).flatten

/-- Structural well-formedness of a chunk encoding: 4 type bytes,
4 CRC bytes, and a payload length representable in the 32-bit length
prefix. -/
def wfChunk (c : RawChunk) : Prop :=
  c.ctype.length = 4 ∧ c.crc.length = 4 ∧ c.payload.length < 2 ^ 32

instance (c : RawChunk) : Decidable (wfChunk c) := by
  unfold wfChunk; infer_instance

theorem u32be_roundtrip (n : Nat) (h : n < 2 ^ 32) :
    u32beOf (u32beBytes n) = n := by
  simp only [u32beBytes, u32beOf]
  omega

theorem scanChunksF_nil (inflate : List Nat → Option String) (fuel : Nat)
    (st : ScanState) : scanChunksF inflate fuel [] st = st := by
  cases fuel <;> simp [scanChunksF]

theorem scanChunksF_fuel (inflate : List Nat → Option String) :
    ∀ (f1 f2 : Nat) (bytes : List Nat) (st : ScanState),
      bytes.length ≤ f1 → bytes.length ≤ f2 →
      scanChunksF inflate f1 bytes st = scanChunksF inflate f2 bytes st := by
  intro f1
  induction f1 with
  | zero =>
    intro f2 bytes st h1 _
    have hb : bytes = [] := List.eq_nil_of_length_eq_zero (by omega)
    subst hb
    rw [scanChunksF_nil, scanChunksF_nil]
  | succ f1 ih =>
    intro f2 bytes st h1 h2
    cases f2 with
    | zero =>
      have hb : bytes = [] := List.eq_nil_of_length_eq_zero (by omega)
      subst hb
      rw [scanChunksF_nil, scanChunksF_nil]
    | succ f2 =>
      rw [scanChunksF, scanChunksF]
      by_cases hlen : bytes.length < 8
      · simp [hlen]
      · simp only [hlen, if_false]
        by_cases hover : 8 + u32beOf (bytes.take 4) > bytes.length
        · simp [hover]
        · simp only [hover, if_false]
          apply ih
          · have := List.length_drop (12 + u32beOf (bytes.take 4)) bytes
            omega
          · have := List.length_drop (12 + u32beOf (bytes.take 4)) bytes
            omega

theorem scanChunks_cons (inflate : List Nat → Option String) (c : RawChunk)
    (rest : List Nat) (st : ScanState) (hwf : wfChunk c) :
    scanChunks inflate (chunkBytes c ++ rest) st
      = scanChunks inflate rest
          (processChunk inflate (utf8Decode c.ctype) c.payload st) := by
  obtain ⟨ht, hc, hp⟩ := hwf
  have hlen : (chunkBytes c).length = 12 + c.payload.length := by
    simp [chunkBytes, u32beBytes_length, ht, hc]
    omega
  have htotal : (chunkBytes c ++ rest).length = 12 + c.payload.length + rest.length := by
    simp [hlen]
  rw [scanChunks, scanChunksF]
  have h8 : ¬ (chunkBytes c ++ rest).length < 8 := by omega
  rw [if_neg h8]
  have htake4 : (chunkBytes c ++ rest).take 4 = u32beBytes c.payload.length := by
    rw [chunkBytes]
    rw [show u32beBytes c.payload.length ++ c.ctype ++ c.payload ++ c.crc ++ rest
      = u32beBytes c.payload.length ++ (c.ctype ++ (c.payload ++ (c.crc ++ rest)))
      from by simp [List.append_assoc]]
    exact List.take_left' (u32beBytes_length _)
  rw [htake4, u32be_roundtrip _ hp]
  have hover : ¬ 8 + c.payload.length > (chunkBytes c ++ rest).length := by omega
  rw [if_neg hover]
  have hdrop4 : (chunkBytes c ++ rest).drop 4
      = c.ctype ++ (c.payload ++ (c.crc ++ rest)) := by
    rw [chunkBytes]
    rw [show u32beBytes c.payload.length ++ c.ctype ++ c.payload ++ c.crc ++ rest
      = u32beBytes c.payload.length ++ (c.ctype ++ (c.payload ++ (c.crc ++ rest)))
      from by simp [List.append_assoc]]
    exact List.drop_left' (u32beBytes_length _)
  have htype : ((chunkBytes c ++ rest).drop 4).take 4 = c.ctype := by
    rw [hdrop4]
    exact List.take_left' ht
  rw [htype]
  have hdrop8 : (chunkBytes c ++ rest).drop 8 = c.payload ++ (c.crc ++ rest) := by
    rw [chunkBytes]
    rw [show u32beBytes c.payload.length ++ c.ctype ++ c.payload ++ c.crc ++ rest
      = (u32beBytes c.payload.length ++ c.ctype) ++ (c.payload ++ (c.crc ++ rest))
      from by simp [List.append_assoc]]
    exact List.drop_left' (by simp [u32beBytes_length, ht])
  have hpay : ((chunkBytes c ++ rest).drop 8).take c.payload.length = c.payload := by
    rw [hdrop8]
    exact List.take_left' rfl
  rw [hpay]
  have hdroprest : (chunkBytes c ++ rest).drop (12 + c.payload.length) = rest := by
    rw [chunkBytes]
    rw [show u32beBytes c.payload.length ++ c.ctype ++ c.payload ++ c.crc ++ rest
      = (u32beBytes c.payload.length ++ c.ctype ++ c.payload ++ c.crc) ++ rest
      from by simp [List.append_assoc]]
    refine List.drop_left' ?_
    simp [u32beBytes_length, ht, hc]
    omega
  rw [hdroprest, scanChunks]
  apply scanChunksF_fuel
  · omega
  · omega

theorem scanChunks_concat (inflate : List Nat → Option String) (cs : List RawChunk)
    (hwf : ∀ c ∈ cs, wfChunk c) (tail : List Nat) (st : ScanState) :
    scanChunks inflate (chunksBytes cs ++ tail) st
      = scanChunks inflate tail
          (cs.foldl (fun acc c =>
            processChunk inflate (utf8Decode c.ctype) c.payload acc) st) := by
  induction cs generalizing st with
  | nil => simp [chunksBytes]
  | cons c cs ih =>
    rw [show chunksBytes (c :: cs) = chunkBytes c ++ chunksBytes cs from by
      simp [chunksBytes]]
    rw [List.append_assoc, scanChunks_cons inflate c _ st (hwf c (by simp))]
    rw [ih (fun x hx => hwf x (by simp [hx]))]
    rfl

/-- A byte tail on which the walk stops: too short for a header, or a
declared length overrunning the remaining bytes. -/
def truncatedTail (tail : List Nat) : Prop :=
  tail.length < 8 ∨ 8 + u32beOf (tail.take 4) > tail.length

theorem scanChunks_truncated (inflate : List Nat → Option String)
    (tail : List Nat) (st : ScanState) (h : truncatedTail tail) :
    scanChunks inflate tail st = st := by
  rw [scanChunks, scanChunksF]
  rcases h with h | h
  · simp [h]
  · by_cases h8 : tail.length < 8
    · simp [h8]
    · simp [h8, h]

/-- The `characterData` assignment a single chunk makes, if any:
`some v` when the chunk is a text chunk with a qualifying keyword whose
interpretation succeeds with `v`; `none` when the walk leaves
`characterData` untouched. -/
def chunkAssign (inflate : List Nat → Option String) (ctype : String)
    (payload : List Nat) : Option JVal :=
  if ctype = "tEXt" then
    match findZero payload with
    | some sep =>
      let kw := lowerStr (utf8Decode (payload.take sep))
      let txt := utf8Decode (payload.drop (sep + 1))
      if KNOWN_KEYS.contains kw then interpretText txt else none
    | none => none
  else if ctype = "zTXt" then
    match findZero payload with
    | some sep =>
      let kw := lowerStr (utf8Decode (payload.take sep))
      match inflate (payload.drop (sep + 2)) with
      | some txt =>
        if txt ≠ "" then
          (if KNOWN_KEYS.contains kw then interpretText txt else none)
        else none
      | none => none
    | none => none
  else if ctype = "iTXt" then
    match findZero payload with
    | some sep =>
      let kw := lowerStr (utf8Decode (payload.take sep))
      let compFlag := payload.get? (sep + 1)
      match (List.range payload.length).filter
          (fun j => sep + 3 ≤ j && payload.getD j 1 = 0) with
      | _ :: j2 :: _ =>
        let textStart := j2 + 1
        if textStart < payload.length then
          let raw := payload.drop textStart
          let txt := if compFlag = some 1 then (inflate raw).getD "" else utf8Decode raw
          if txt ≠ "" then
            (if KNOWN_KEYS.contains kw || kw = "" then interpretText txt else none)
          else none
        else none
      | _ => none
    | none => none
  else none

theorem applyCardText_characterData (txt : String) (known : Bool) (st : ScanState) :
    (applyCardText txt known st).characterData
      = ((if known then interpretText txt else none)).getD st.characterData := by
  unfold applyCardText
  by_cases hk : known <;> by_cases hf : isFallbackCandidate txt = true <;>
    cases hi : interpretText txt <;> simp [hk, hf, hi]

theorem processChunk_characterData (inflate : List Nat → Option String)
    (ctype : String) (payload : List Nat) (st : ScanState) :
    (processChunk inflate ctype payload st).characterData
      = (chunkAssign inflate ctype payload).getD st.characterData := by
  unfold processChunk chunkAssign
  by_cases h1 : ctype = "tEXt"
  · simp only [h1, if_true]
    cases hz : findZero payload with
    | none => simp
    | some sep =>
      simp only
      rw [applyCardText_characterData]
  · simp only [h1, if_false]
    by_cases h2 : ctype = "zTXt"
    · simp only [h2, if_true]
      cases hz : findZero payload with
      | none => simp
      | some sep =>
        simp only
        cases hi : inflate (payload.drop (sep + 2)) with
        | none => simp
        | some txt =>
          simp only
          by_cases he : txt = ""
          · simp [he]
          · simp only [he, ne_eq, not_false_iff, if_true]
            rw [applyCardText_characterData]
    · simp only [h2, if_false]
      by_cases h3 : ctype = "iTXt"
      · simp only [h3, if_true]
        cases hz : findZero payload with
        | none => simp
        | some sep =>
          simp only
          cases hr : (List.range payload.length).filter
              (fun j => sep + 3 ≤ j && payload.getD j 1 = 0) with
          | nil => simp
          | cons j1 rest =>
            cases rest with
            | nil => simp
            | cons j2 rest2 =>
              simp only
              by_cases hts : j2 + 1 < payload.length
              · simp only [hts, if_true]
                split_ifs <;> simp_all [applyCardText_characterData]
              · simp [hts]
      · simp [h3]

theorem scanChunks_nil (inflate : List Nat → Option String) (st : ScanState) :
    scanChunks inflate [] st = st := by
  rw [scanChunks]
  exact scanChunksF_nil inflate _ st

theorem scanChunks_eq_foldl (inflate : List Nat → Option String)
    (cs : List RawChunk) (hwf : ∀ c ∈ cs, wfChunk c) (st : ScanState) :
    scanChunks inflate (chunksBytes cs) st
      = cs.foldl (fun acc c =>
          processChunk inflate (utf8Decode c.ctype) c.payload acc) st := by
  have h := scanChunks_concat inflate cs hwf [] st
  rw [List.append_nil] at h
  rw [h, scanChunks_nil]

theorem scanFold_characterData (inflate : List Nat → Option String)
    (cs : List RawChunk) (st : ScanState) :
    (cs.foldl (fun acc c =>
        processChunk inflate (utf8Decode c.ctype) c.payload acc) st).characterData
      = cs.foldl (fun acc c =>
          (chunkAssign inflate (utf8Decode c.ctype) c.payload).getD acc)
          st.characterData := by
  induction cs generalizing st with
  | nil => rfl
  | cons c cs ih =>
    rw [List.foldl_cons, List.foldl_cons, ih, processChunk_characterData]

theorem foldl_assign_none (inflate : List Nat → Option String) (bs : List RawChunk)
    (hbs : ∀ b ∈ bs, chunkAssign inflate (utf8Decode b.ctype) b.payload = none)
    (a : JVal) :
    bs.foldl (fun acc c =>
      (chunkAssign inflate (utf8Decode c.ctype) c.payload).getD acc) a = a := by
  induction bs generalizing a with
  | nil => rfl
  | cons b bs ih =>
    rw [List.foldl_cons, hbs b (by simp)]
    exact ih (fun x hx => hbs x (by simp [hx])) a

theorem sig_take_eight (x : List Nat) : (PNG_SIG ++ x).take 8 = PNG_SIG :=
  List.take_left' rfl

theorem sig_drop_eight (x : List Nat) : (PNG_SIG ++ x).drop 8 = x :=
  List.drop_left' rfl

/-- **C2, counterexample**: a PNG with two `chara` `tEXt` chunks whose
payloads parse (first to `{name: "A"}`, then to `{name: "B"}`): the
recorded primary result is the *second* chunk's object, not the
first's, because each successful known-keyword parse unconditionally
overwrites `characterData`. -/
theorem C2_primary_result_counterexample :
    parseCharacterCardData (fun _ => none)
      (PNG_SIG ++ chunksBytes
        [⟨utf8Encode "tEXt", utf8Encode "chara" ++ [0] ++
            utf8Encode "\x7b\"name\":\"A\"\x7d", [0, 0, 0, 0]⟩,
         ⟨utf8Encode "tEXt", utf8Encode "chara" ++ [0] ++
            utf8Encode "\x7b\"name\":\"B\"\x7d", [0, 0, 0, 0]⟩])
      = .ok (JVal.obj [("name", JVal.str "B")]) ∧
    JVal.obj [("name", JVal.str "B")] ≠ JVal.obj [("name", JVal.str "A")] := by
  decide

/-- **C2, amended**: when several known-keyword chunks parse
successfully, the recorded primary result is the parsed object of the
*last* such chunk in byte/encounter order (each success overwrites the
previous one); if that object is truthy, `parseCharacterCard` returns
it. -/
theorem C2_primary_result_amended (inflate : List Nat → Option String)
    (as bs : List RawChunk) (c : RawChunk) (v : JVal)
    (hwf : ∀ x ∈ as ++ c :: bs, wfChunk x)
    (hassign : chunkAssign inflate (utf8Decode c.ctype) c.payload = some v)
    (hbs : ∀ b ∈ bs, chunkAssign inflate (utf8Decode b.ctype) b.payload = none) :
    (scanChunks inflate (chunksBytes (as ++ c :: bs))
      ⟨.null, []⟩).characterData = v ∧
    (truthy v = true →
      parseCharacterCardData inflate (PNG_SIG ++ chunksBytes (as ++ c :: bs))
        = .ok v) := by
  have hcd : (scanChunks inflate (chunksBytes (as ++ c :: bs))
      ⟨.null, []⟩).characterData = v := by
    rw [scanChunks_eq_foldl inflate _ hwf, scanFold_characterData,
      List.foldl_append, List.foldl_cons, hassign]
    exact foldl_assign_none inflate bs hbs v
  refine ⟨hcd, fun hv => ?_⟩
  rw [parseCharacterCardData, if_neg (by rw [sig_take_eight]; simp),
    sig_drop_eight, finalizeScan]
  simp [hcd, hv]

/-- Witness for C2's amended theorem: two concrete `chara` chunks; the
last one's object is recorded and returned. -/
theorem C2_primary_result_amended_witness :
    (scanChunks (fun _ => none)
      (chunksBytes
        ([⟨utf8Encode "tEXt", utf8Encode "chara" ++ [0] ++
            utf8Encode "\x7b\"name\":\"A\"\x7d", [0, 0, 0, 0]⟩] ++
          ⟨utf8Encode "tEXt", utf8Encode "chara" ++ [0] ++
            utf8Encode "\x7b\"name\":\"B\"\x7d", [0, 0, 0, 0]⟩ :: []))
      ⟨.null, []⟩).characterData = JVal.obj [("name", JVal.str "B")] ∧
    (truthy (JVal.obj [("name", JVal.str "B")]) = true →
      parseCharacterCardData (fun _ => none)
        (PNG_SIG ++ chunksBytes
          ([⟨utf8Encode "tEXt", utf8Encode "chara" ++ [0] ++
              utf8Encode "\x7b\"name\":\"A\"\x7d", [0, 0, 0, 0]⟩] ++
            ⟨utf8Encode "tEXt", utf8Encode "chara" ++ [0] ++
              utf8Encode "\x7b\"name\":\"B\"\x7d", [0, 0, 0, 0]⟩ :: []))
        = .ok (JVal.obj [("name", JVal.str "B")])) :=
  C2_primary_result_amended (fun _ => none)
    [⟨utf8Encode "tEXt", utf8Encode "chara" ++ [0] ++
        utf8Encode "\x7b\"name\":\"A\"\x7d", [0, 0, 0, 0]⟩]
    []
    ⟨utf8Encode "tEXt", utf8Encode "chara" ++ [0] ++
        utf8Encode "\x7b\"name\":\"B\"\x7d", [0, 0, 0, 0]⟩
    (JVal.obj [("name", JVal.str "B")])
    (by decide) (by decide) (by decide)

instance (tail : List Nat) : Decidable (truncatedTail tail) := by
  unfold truncatedTail; infer_instance

theorem truthy_jget (d : JVal) (k : String) (h : truthy (jget d k) = true) :
    truthy d = true := by
  cases d <;> simp_all [jget, truthy]

theorem namedCard_truthy (d : JVal) (h : namedCard d = true) :
    truthy d = true := by
  unfold namedCard at h
  rcases Bool.or_eq_true_iff.mp h with h | h
  · exact truthy_jget d "name" h
  · exact truthy_jget d "data" (truthy_jget (jget d "data") "name" h)

theorem fallbackScan_truthy (l : List String) (d : JVal)
    (h : fallbackScan l = some d) : truthy d = true := by
  induction l with
  | nil => simp [fallbackScan] at h
  | cons c rest ih =>
    rw [fallbackScan] at h
    split at h
    · rename_i d1 _
      by_cases hn : namedCard d1 = true
      · rw [if_pos hn] at h
        obtain rfl := Option.some.inj h
        exact namedCard_truthy d1 hn
      · rw [if_neg hn] at h
        exact ih h
    · split at h
      · rename_i d2 _
        by_cases hn : namedCard d2 = true
        · rw [if_pos hn] at h
          obtain rfl := Option.some.inj h
          exact namedCard_truthy d2 hn
        · rw [if_neg hn] at h
          exact ih h
      · exact ih h

/-- **C6**: graceful truncation.  Appending a truncated chunk fragment
(header cut short, or a declared length running past the end) to a
well-formed chunk sequence does not change the parse result at all;
whenever the walk recorded truthy card data the parse succeeds with it;
and the no-card error is thrown exactly when no truthy card data was
recorded and the fallback scan had no candidates or accepted none. -/
theorem C6_graceful_truncation (inflate : List Nat → Option String)
    (cs : List RawChunk) (tail : List Nat)
    (hwf : ∀ c ∈ cs, wfChunk c) (htail : truncatedTail tail) :
    parseCharacterCardData inflate (PNG_SIG ++ (chunksBytes cs ++ tail))
      = parseCharacterCardData inflate (PNG_SIG ++ chunksBytes cs) ∧
    (truthy (scanChunks inflate (chunksBytes cs ++ tail)
        ⟨.null, []⟩).characterData = true →
      parseCharacterCardData inflate (PNG_SIG ++ (chunksBytes cs ++ tail))
        = .ok (scanChunks inflate (chunksBytes cs ++ tail)
            ⟨.null, []⟩).characterData) ∧
    (parseCharacterCardData inflate (PNG_SIG ++ (chunksBytes cs ++ tail))
        = .error noCardMsg ↔
      truthy (scanChunks inflate (chunksBytes cs ++ tail)
        ⟨.null, []⟩).characterData = false ∧
      ((scanChunks inflate (chunksBytes cs ++ tail)
          ⟨.null, []⟩).fallbackChunks = [] ∨
        fallbackScan (scanChunks inflate (chunksBytes cs ++ tail)
          ⟨.null, []⟩).fallbackChunks = none)) := by
  have hfold := scanChunks_concat inflate cs hwf tail ⟨.null, []⟩
  rw [scanChunks_truncated inflate tail _ htail] at hfold
  have heq : scanChunks inflate (chunksBytes cs ++ tail) ⟨.null, []⟩
      = scanChunks inflate (chunksBytes cs) ⟨.null, []⟩ := by
    rw [hfold, scanChunks_eq_foldl inflate cs hwf]
  refine ⟨?_, ?_, ?_⟩
  · rw [parseCharacterCardData, parseCharacterCardData,
      if_neg (by rw [sig_take_eight]; simp),
      if_neg (by rw [sig_take_eight]; simp),
      sig_drop_eight, sig_drop_eight, heq]
  · intro hv
    rw [parseCharacterCardData, if_neg (by rw [sig_take_eight]; simp),
      sig_drop_eight, finalizeScan]
    simp [hv]
  · rw [parseCharacterCardData, if_neg (by rw [sig_take_eight]; simp),
      sig_drop_eight, finalizeScan]
    by_cases hv : truthy (scanChunks inflate (chunksBytes cs ++ tail)
        ⟨.null, []⟩).characterData = true
    · simp [hv]
    · have hv' : truthy (scanChunks inflate (chunksBytes cs ++ tail)
          ⟨.null, []⟩).characterData = false := by
        simpa using hv
      by_cases hfb : (scanChunks inflate (chunksBytes cs ++ tail)
          ⟨.null, []⟩).fallbackChunks = []
      · simp [hv', hfb]
      · cases hsc : fallbackScan (scanChunks inflate (chunksBytes cs ++ tail)
            ⟨.null, []⟩).fallbackChunks with
        | some d =>
          have ht := fallbackScan_truthy _ _ hsc
          simp [hv', hfb, hsc, ht]
        | none => simp [hv', hfb, hsc]

def c6Chunk : RawChunk :=
  ⟨utf8Encode "tEXt",
   utf8Encode "chara" ++ [0] ++ utf8Encode "\x7b\"name\":\"C\"\x7d",
   [0, 0, 0, 0]⟩

def c6Tail : List Nat := [0, 0, 1, 0, 73, 68, 65, 84]

/-- Witness for C6: one complete `chara` chunk followed by an `IDAT`
header whose declared length (256) runs past the end of the buffer. -/
theorem C6_graceful_truncation_witness :
    parseCharacterCardData (fun _ => none)
      (PNG_SIG ++ (chunksBytes [c6Chunk] ++ c6Tail))
      = parseCharacterCardData (fun _ => none) (PNG_SIG ++ chunksBytes [c6Chunk]) ∧
    (truthy (scanChunks (fun _ => none) (chunksBytes [c6Chunk] ++ c6Tail)
        ⟨.null, []⟩).characterData = true →
      parseCharacterCardData (fun _ => none)
        (PNG_SIG ++ (chunksBytes [c6Chunk] ++ c6Tail))
        = .ok (scanChunks (fun _ => none) (chunksBytes [c6Chunk] ++ c6Tail)
            ⟨.null, []⟩).characterData) ∧
    (parseCharacterCardData (fun _ => none)
        (PNG_SIG ++ (chunksBytes [c6Chunk] ++ c6Tail))
        = .error noCardMsg ↔
      truthy (scanChunks (fun _ => none) (chunksBytes [c6Chunk] ++ c6Tail)
        ⟨.null, []⟩).characterData = false ∧
      ((scanChunks (fun _ => none) (chunksBytes [c6Chunk] ++ c6Tail)
          ⟨.null, []⟩).fallbackChunks = [] ∨
        fallbackScan (scanChunks (fun _ => none) (chunksBytes [c6Chunk] ++ c6Tail)
          ⟨.null, []⟩).fallbackChunks = none)) :=
  C6_graceful_truncation (fun _ => none) [c6Chunk] c6Tail
    (by decide) (by decide)

/-- **C7, counterexample**: the first interpretation stage does not
hand the raw text to the JSON parser.  `decodeBase64Utf8` strips all
whitespace and, when base64 decoding fails but the stripped text starts
with a brace, returns the *stripped* text, so a raw-JSON chunk whose
string values contain spaces is parsed with those spaces deleted. -/
theorem C7_interpretation_order_counterexample :
    interpretText "\x7b\"name\":\"a b\"\x7d"
      = some (JVal.obj [("name", JVal.str "ab")]) ∧
    jparse "\x7b\"name\":\"a b\"\x7d"
      = some (JVal.obj [("name", JVal.str "a b")]) ∧
    interpretText "\x7b\"name\":\"a b\"\x7d"
      ≠ jparse "\x7b\"name\":\"a b\"\x7d" := by
  decide

/-- **C7, amended**: interpretation first attempts
base64-decode-then-UTF8-then-JSON-parse, falling back to a direct JSON
parse of the exact chunk text only when that whole first stage fails —
but when base64 decoding fails on a text whose whitespace-stripped form
starts with a brace, the first stage JSON-parses the *stripped* text,
not the raw text (the raw text is only reached if the stripped text
fails to parse).  Known-keyword `tEXt` chunks record exactly this
interpretation of the text after the keyword separator. -/
theorem C7_interpretation_order_amended (txt : String)
    (inflate : List Nat → Option String) (payload : List Nat) (sep : Nat)
    (h1 : atobBytes (stripWs txt) = none)
    (h2 : strStarts (jsTrim (stripWs txt)) "\x7b" = true)
    (hz : findZero payload = some sep)
    (hk : KNOWN_KEYS.contains (lowerStr (utf8Decode (payload.take sep))) = true) :
    decodeBase64Utf8 txt = .ok (stripWs txt) ∧
    interpretText txt = (match jparse (stripWs txt) with
      | some w => some w
      | none => jparse txt) ∧
    (∀ s, (match decodeBase64Utf8 s with
           | .ok u => jparse u
           | .error _ => none) = none → interpretText s = jparse s) ∧
    chunkAssign inflate "tEXt" payload
      = interpretText (utf8Decode (payload.drop (sep + 1))) := by
  have hdec : decodeBase64Utf8 txt = .ok (stripWs txt) := by
    unfold decodeBase64Utf8
    simp [h1, h2]
  refine ⟨hdec, ?_, ?_, ?_⟩
  · unfold interpretText
    rw [hdec]
  · intro s hs
    unfold interpretText
    rw [hs]
  · have hk' : lowerStr (utf8Decode (payload.take sep)) ∈ KNOWN_KEYS := by
      simpa using hk
    simp [chunkAssign, hz, hk']

/-- Witness for C7's amended theorem at a concrete raw-JSON text and a
concrete known-keyword `tEXt` payload. -/
theorem C7_interpretation_order_witness :
    decodeBase64Utf8 "\x7b\"a\":1 \x7d" = .ok (stripWs "\x7b\"a\":1 \x7d") ∧
    interpretText "\x7b\"a\":1 \x7d"
      = (match jparse (stripWs "\x7b\"a\":1 \x7d") with
         | some w => some w
         | none => jparse "\x7b\"a\":1 \x7d") ∧
    (∀ s, (match decodeBase64Utf8 s with
           | .ok u => jparse u
           | .error _ => none) = none → interpretText s = jparse s) ∧
    chunkAssign (fun _ => none) "tEXt"
        (utf8Encode "chara" ++ [0] ++ utf8Encode "\x7b\"a\":1\x7d")
      = interpretText (utf8Decode
          ((utf8Encode "chara" ++ [0] ++ utf8Encode "\x7b\"a\":1\x7d").drop (5 + 1))) :=
  C7_interpretation_order_amended "\x7b\"a\":1 \x7d" (fun _ => none)
    (utf8Encode "chara" ++ [0] ++ utf8Encode "\x7b\"a\":1\x7d") 5
    (by decide) (by decide) (by decide) (by decide)

def c8Chunk : RawChunk :=
  ⟨utf8Encode "tEXt",
   utf8Encode "foo" ++ [0] ++ utf8Encode "\x7b\"name\":\" \"\x7d",
   [0, 0, 0, 0]⟩

/-- **C8, counterexample**: a PNG whose only text chunk has the
unrecognized keyword `foo` and whose decoded text raw-parses to an
object with a (truthy) top-level `name` is *not* decoded: the fallback
first stage strips whitespace, parses `\x7b"name":""\x7d` successfully,
fails the truthy-name test, and — because a successful first-stage parse
throws nothing — the raw-JSON attempt in the `catch` never runs. -/
theorem C8_fallback_acceptance_counterexample :
    parseCharacterCardData (fun _ => none) (PNG_SIG ++ chunksBytes [c8Chunk])
      = .error noCardMsg ∧
    jparse (utf8Decode (c8Chunk.payload.drop 4))
      = some (JVal.obj [("name", JVal.str " ")]) ∧
    namedCard (JVal.obj [("name", JVal.str " ")]) = true := by
  decide

/-- **C8, amended**: fallback candidates are scanned in order and the
first accepted one wins, but acceptance of a candidate is decided as
follows: if the base64-stage parse succeeds, its result is accepted or
rejected solely by the truthy `name`/`data.name` test and the raw-JSON
attempt is skipped entirely; only when the whole base64 stage fails is
the raw text parsed and tested.  A single unknown-keyword `tEXt` chunk
is decoded exactly when this procedure accepts its text. -/
theorem C8_fallback_acceptance_amended
    (inflate : List Nat → Option String) (payload : List Nat) (sep : Nat)
    (d : JVal) (c : String) (rest : List String)
    (hwfp : payload.length < 2 ^ 32)
    (hz : findZero payload = some sep)
    (hk : KNOWN_KEYS.contains (lowerStr (utf8Decode (payload.take sep))) = false)
    (hcand : isFallbackCandidate (utf8Decode (payload.drop (sep + 1))) = true)
    (hfb : fallbackScan [utf8Decode (payload.drop (sep + 1))] = some d) :
    parseCharacterCardData inflate
      (PNG_SIG ++ chunksBytes [⟨utf8Encode "tEXt", payload, [0, 0, 0, 0]⟩])
      = .ok d ∧
    (∀ d1, (match decodeBase64Utf8 c with
            | .ok s => jparse s
            | .error _ => none) = some d1 →
      fallbackScan (c :: rest)
        = if namedCard d1 then some d1 else fallbackScan rest) ∧
    ((match decodeBase64Utf8 c with
      | .ok s => jparse s
      | .error _ => none) = none →
      fallbackScan (c :: rest)
        = match jparse c with
          | some d2 => if namedCard d2 then some d2 else fallbackScan rest
          | none => fallbackScan rest) := by
  refine ⟨?_, ?_, ?_⟩
  · have hwf1 : ∀ x ∈ [(⟨utf8Encode "tEXt", payload, [0, 0, 0, 0]⟩ : RawChunk)],
        wfChunk x := by
      intro x hx
      simp at hx
      subst hx
      exact ⟨rfl, rfl, hwfp⟩
    have ht := fallbackScan_truthy _ _ hfb
    have hk' : lowerStr (utf8Decode (payload.take sep)) ∉ KNOWN_KEYS := by
      simpa using hk
    rw [parseCharacterCardData, if_neg (by rw [sig_take_eight]; simp),
      sig_drop_eight, scanChunks_eq_foldl inflate _ hwf1]
    simp only [List.foldl_cons, List.foldl_nil]
    have hct : utf8Decode (utf8Encode "tEXt") = "tEXt" := by decide
    rw [hct]
    simp [processChunk, hz, hk', applyCardText, hcand, finalizeScan, hfb, ht, truthy]
    simpa [truthy] using ht
  · intro d1 h
    rw [fallbackScan, h]
  · intro h
    rw [fallbackScan, h]

/-- Witness for C8's amended theorem: an unknown-keyword chunk whose
raw JSON carries a truthy name is accepted through the fallback. -/
theorem C8_fallback_acceptance_witness :
    parseCharacterCardData (fun _ => none)
      (PNG_SIG ++ chunksBytes
        [⟨utf8Encode "tEXt",
          utf8Encode "foo" ++ [0] ++ utf8Encode "\x7b\"name\":\"Bob\"\x7d",
          [0, 0, 0, 0]⟩])
      = .ok (JVal.obj [("name", JVal.str "Bob")]) ∧
    (∀ d1, (match decodeBase64Utf8 "x" with
            | .ok s => jparse s
            | .error _ => none) = some d1 →
      fallbackScan ["x"]
        = if namedCard d1 then some d1 else fallbackScan []) ∧
    ((match decodeBase64Utf8 "x" with
      | .ok s => jparse s
      | .error _ => none) = none →
      fallbackScan ["x"]
        = match jparse "x" with
          | some d2 => if namedCard d2 then some d2 else fallbackScan []
          | none => fallbackScan []) :=
  C8_fallback_acceptance_amended (fun _ => none)
    (utf8Encode "foo" ++ [0] ++ utf8Encode "\x7b\"name\":\"Bob\"\x7d") 3
    (JVal.obj [("name", JVal.str "Bob")]) "x" []
    (by decide) (by decide) (by decide) (by decide) (by decide)

theorem findIend_bounds (png : List Nat) (i : Nat)
    (hsig : png.take 8 = PNG_SIG) (hfind : findIend png = some i) :
    8 ≤ i ∧ i < png.length - 7 := by
  have hlt := List.mem_range.mp (List.mem_of_find?_eq_some hfind)
  refine ⟨?_, hlt⟩
  have hpred := List.find?_some hfind
  simp only [Bool.and_eq_true, decide_eq_true_eq] at hpred
  by_contra h8
  push_neg at h8
  have hpng : png = PNG_SIG ++ png.drop 8 := by
    conv_lhs => rw [← List.take_append_drop 8 png, hsig]
  have hI : png.getD i 0 = 73 := hpred.1.1.1
  have hIlt : i < PNG_SIG.length := by
    simp only [PNG_SIG, List.length_cons, List.length_nil]
    omega
  rw [hpng, List.getD_append _ _ _ _ hIlt] at hI
  interval_cases i <;> exact absurd hI (by decide)

/-- **C3**: splice correctness of the PNG encoder.  When the source
buffer carries the PNG signature and the 4-byte `IEND` type signature
is found at index `i` (necessarily `i ≥ 8`, so `i - 4` is the IEND
length-prefix offset), the output is exactly the input bytes before the
length-prefix, then the freshly built `tEXt` chunk, then the rest of
the input unchanged; the output size is the input size plus the chunk
size; and a buffer without `IEND` fails with the missing-IEND error. -/
theorem C3_splice_correctness (c : Character) (png : List Nat)
    (env : STExport) (i : Nat)
    (hsig : png.take 8 = PNG_SIG)
    (henv : buildExportData c = .ok env)
    (hfind : findIend png = some i) :
    createTavernPngBytes c png
      = .ok (png.take (i - 4) ++ tavernChunk env ++ png.drop (i - 4)) ∧
    (png.take (i - 4) ++ tavernChunk env ++ png.drop (i - 4)).length
      = png.length + (tavernChunk env).length ∧
    8 ≤ i ∧
    (∀ png2, findIend png2 = none →
      createTavernPngBytes c png2 = .error "Invalid PNG: No IEND chunk found") := by
  obtain ⟨hi8, hlt⟩ := findIend_bounds png i hsig hfind
  have hio : i - 4 ≤ png.length := by omega
  have hlen1 : (png.take (i - 4)).length = i - 4 := by
    rw [List.length_take]
    omega
  have hdlen : (png.drop (i - 4)).length = png.length - (i - 4) :=
    List.length_drop _ _
  have h1 : writeAt (List.replicate (png.length + (tavernChunk env).length) 0)
        0 (png.take (i - 4))
      = png.take (i - 4) ++
        List.replicate (png.length + (tavernChunk env).length - (i - 4)) 0 := by
    have h := writeAt_append_zeros [] (png.take (i - 4))
        (png.length + (tavernChunk env).length) 0 rfl (by rw [hlen1]; omega)
    rw [hlen1] at h
    simpa using h
  have h2 : writeAt (png.take (i - 4) ++
        List.replicate (png.length + (tavernChunk env).length - (i - 4)) 0)
        (i - 4) (tavernChunk env)
      = (png.take (i - 4) ++ tavernChunk env) ++
        List.replicate (png.length - (i - 4)) 0 := by
    have h := writeAt_append_zeros (png.take (i - 4)) (tavernChunk env)
        (png.length + (tavernChunk env).length - (i - 4)) (i - 4)
        hlen1.symm (by omega)
    rw [h]
    have hx : png.length + (tavernChunk env).length - (i - 4) -
        (tavernChunk env).length = png.length - (i - 4) := by omega
    rw [hx]
  have h3 : writeAt ((png.take (i - 4) ++ tavernChunk env) ++
        List.replicate (png.length - (i - 4)) 0)
        ((i - 4) + (tavernChunk env).length) (png.drop (i - 4))
      = png.take (i - 4) ++ tavernChunk env ++ png.drop (i - 4) := by
    have h := writeAt_append_zeros (png.take (i - 4) ++ tavernChunk env)
        (png.drop (i - 4)) (png.length - (i - 4))
        ((i - 4) + (tavernChunk env).length)
        (by rw [List.length_append, hlen1]) (by rw [hdlen])
    rw [h, hdlen]
    have hx : png.length - (i - 4) - (png.length - (i - 4)) = 0 := by omega
    rw [hx]
    simp
  refine ⟨?_, ?_, hi8, ?_⟩
  · simp only [createTavernPngBytes, henv, bind, Except.bind, hfind]
    rw [h1, h2, h3]
    rfl
  · simp only [List.length_append, hlen1, hdlen]
    omega
  · intro png2 hnone
    simp only [createTavernPngBytes, henv, bind, Except.bind, hnone]

def c3Png : List Nat :=
  PNG_SIG ++ [0, 0, 0, 0, 73, 69, 78, 68, 174, 66, 96, 130]

/-- Witness for C3: a minimal signed PNG whose IEND type starts at
index 12, spliced with the chunk for a concrete character. -/
theorem C3_splice_correctness_witness :
    createTavernPngBytes witChar c3Png
      = .ok (c3Png.take (12 - 4) ++ tavernChunk witEnv ++ c3Png.drop (12 - 4)) ∧
    (c3Png.take (12 - 4) ++ tavernChunk witEnv ++ c3Png.drop (12 - 4)).length
      = c3Png.length + (tavernChunk witEnv).length ∧
    8 ≤ 12 ∧
    (∀ png2, findIend png2 = none →
      createTavernPngBytes witChar png2
        = .error "Invalid PNG: No IEND chunk found") :=
  C3_splice_correctness witChar c3Png witEnv 12
    (by decide) (by decide) (by decide)
